import Mathlib

/-!
# Route registration and argument binding of `WebService.go`

A shallow embedding of `src/WebService.go` (package `s`): the route registry
(`RestfulWithPriority`, `makeCachedService`), the argument binder
(`doWebService`), the session and injection stores and `makeBytesResult`.

Go strings are byte sequences; a byte is a `Nat` below 256.
-/

namespace WebService

/-! ## Strings -/

/-- Go `string`: a sequence of bytes. -/
abbrev Bytes := List Nat

/-- Bytes of an ASCII literal (used to write examples). -/
def ascii (s : String) : Bytes := s.toList.map Char.toNat

/-- Bytes that `regexp.QuoteMeta` escapes: the characters of
the Go constant `\.+*?()|[]{}^$`. -/
def special (b : Nat) : Bool :=
  b = 92 || b = 46 || b = 43 || b = 42 || b = 63 || b = 40 || b = 41 || b = 124 ||
  b = 91 || b = 93 || b = 123 || b = 125 || b = 94 || b = 36

/-- Go `regexp.QuoteMeta`: a backslash is put before every special byte. -/
def QuoteMeta : Bytes → Bytes
  | [] => []
  | b :: s => if special b then 92 :: b :: QuoteMeta s else b :: QuoteMeta s

/-- Whether `p` is a prefix of `s`. -/
def hasPrefix : Bytes → Bytes → Bool
  | [], _ => true
  | _ :: _, [] => false
  | a :: p, b :: s => a == b && hasPrefix p s

/-- Go `strings.Replace(s, old, new, 1)` for a non-empty `old`: the first
occurrence of `old` in `s` is replaced by `new`; `s` is returned unchanged when
`old` does not occur. -/
def replaceFirst (old new : Bytes) : Bytes → Bytes
  | [] => []
  | b :: s =>
    if hasPrefix old (b :: s) then new ++ (b :: s).drop old.length
    else b :: replaceFirst old new s

/-- Scan for the closing brace of a placeholder opened just before `s`: the
lazy `.*?` takes bytes up to the first `}`; `.` does not match a newline, so
a newline before any `}` means no match starts at that `{`. Returns the
captured name and the text after the `}`. -/
def closeBrace : Bytes → Option (Bytes × Bytes)
  | [] => none
  | b :: s =>
    if b = 125 then some ([], s)
    else if b = 10 then none
    else match closeBrace s with
      | some (name, rest) => some (b :: name, rest)
      | none => none

/-- One search step of the finder `{(.*?)}` (leftmost match, lazy capture):
the first `{` that is closed by a `}` before any newline. Returns the text
before the match, the captured name and the text after the match. -/
def findOne : Bytes → Option (Bytes × Bytes × Bytes)
  | [] => none
  | b :: s =>
    match (if b = 123 then closeBrace s else none) with
    | some (name, rest) => some ([], name, rest)
    | none =>
      match findOne s with
      | some (gap, name, rest) => some (b :: gap, name, rest)
      | none => none

/-- Go `finder.FindAllStringSubmatch(path, n)` for the fixed finder
`regexp.Compile("{(.*?)}")`: at most `n` successive non-overlapping matches,
each given as `(found[0], found[1])`, the whole match and the captured name. -/
def FindAllStringSubmatch : Nat → Bytes → List (Bytes × Bytes)
  | 0, _ => []
  | n + 1, path =>
    match findOne path with
    | none => []
    | some (_, name, rest) => (123 :: name ++ [125], name) :: FindAllStringSubmatch n rest

/-- The text `(.*?)`. -/
def wildcard : Bytes := [40, 46, 42, 63, 41]

/-- The loop of lines 133-136 on `keyName`: for every match, the first
occurrence of the quoted match is replaced by `(.*?)`. -/
def replaceFinds : Bytes → List (Bytes × Bytes) → Bytes
  | keyName, [] => keyName
  | keyName, found :: finds =>
    replaceFinds (replaceFirst (QuoteMeta found.1) wildcard keyName) finds

/-! ## Regular expressions of the compiled path patterns -/

/-- Continuation byte of a UTF-8 sequence. -/
def contByte (b : Nat) : Bool := 128 ≤ b && b ≤ 191

/-- Go `utf8.ValidString`. -/
def validUTF8 : Bytes → Bool
  | [] => true
  | b :: s =>
    if b < 128 then validUTF8 s
    else if 194 ≤ b ∧ b ≤ 223 then
      match s with
      | c1 :: s1 => contByte c1 && validUTF8 s1
      | [] => false
    else if 224 ≤ b ∧ b ≤ 239 then
      match s with
      | c1 :: c2 :: s2 =>
        (if b = 224 then decide (160 ≤ c1) && decide (c1 ≤ 191)
         else if b = 237 then decide (128 ≤ c1) && decide (c1 ≤ 159)
         else contByte c1) && contByte c2 && validUTF8 s2
      | _ => false
    else if 240 ≤ b ∧ b ≤ 244 then
      match s with
      | c1 :: c2 :: c3 :: s3 =>
        (if b = 240 then decide (144 ≤ c1) && decide (c1 ≤ 191)
         else if b = 244 then decide (128 ≤ c1) && decide (c1 ≤ 143)
         else contByte c1) && contByte c2 && contByte c3 && validUTF8 s3
      | _ => false
    else false

/-- Syntax of the patterns that registration builds. -/
inductive Tok where
  /-- The anchor `^`. -/
  | bol
  /-- The anchor `$`. -/
  | eol
  /-- One literal byte. -/
  | lit (b : Nat)
  /-- The capture group `(.*?)`. -/
  | group
  deriving DecidableEq, Repr

/-- ASCII letter or digit. -/
def isalnum (c : Nat) : Bool :=
  (48 ≤ c && c ≤ 57) || (65 ≤ c && c ≤ 90) || (97 ≤ c && c ≤ 122)

/-- Where the parser stands: at the start of an item, after a backslash, or
inside the group `(.*?)` before its `.`, `*`, `?` or `)`. -/
inductive ParseState where
  | start | escape | dot | star | question | close
  deriving DecidableEq, Repr

/-- The regular-expression parser on the fragment registration produces:
`^`, `$`, a backslash followed by an ASCII byte that is no letter or digit
(that byte taken literally), a byte that is not special (taken literally) and
the group `(.*?)`. Anything else is outside the fragment and gives `none`. -/
def parseFrom : ParseState → Bytes → Option (List Tok)
  | .start, [] => some []
  | .start, b :: s =>
    if b = 92 then parseFrom .escape s
    else if b = 40 then parseFrom .dot s
    else if b = 94 then (parseFrom .start s).map (Tok.bol :: ·)
    else if b = 36 then (parseFrom .start s).map (Tok.eol :: ·)
    else if special b then none
    else (parseFrom .start s).map (Tok.lit b :: ·)
  | .escape, [] => none
  | .escape, c :: s =>
    if c < 128 ∧ ¬ isalnum c then (parseFrom .start s).map (Tok.lit c :: ·) else none
  | .dot, [] => none
  | .dot, b :: s => if b = 46 then parseFrom .star s else none
  | .star, [] => none
  | .star, b :: s => if b = 42 then parseFrom .question s else none
  | .question, [] => none
  | .question, b :: s => if b = 63 then parseFrom .close s else none
  | .close, [] => none
  | .close, b :: s => if b = 41 then (parseFrom .start s).map (Tok.group :: ·) else none

/-- The parser run on a whole pattern. -/
def parseToks (pat : Bytes) : Option (List Tok) := parseFrom .start pat

/-- A compiled pattern, Go `*regexp.Regexp`. -/
structure Regexp where
  toks : List Tok
  deriving DecidableEq, Repr

/-- Go `regexp.Compile` on the patterns of this file: the parser rejects a
pattern that is not valid UTF-8 (`ErrInvalidUTF8`); a valid pattern of the
fragment of `parseToks` compiles. The limit of the parser on the size of an
expression is not modelled. -/
def regexpCompile (pat : Bytes) : Option Regexp :=
  if validUTF8 pat then (parseToks pat).map Regexp.mk else none

/-- Lazy group `(.*?)` followed by the continuation `k`: the shortest run of
bytes, none of them a newline, after which `k` matches; `acc` is the run taken
so far, reversed. -/
def lazyGroup (k : Bool → Bytes → Option (List Bytes)) (atStart : Bool) (acc : Bytes) :
    Bytes → Option (List Bytes)
  | [] => (k atStart []).map (acc.reverse :: ·)
  | c :: s =>
    match k atStart (c :: s) with
    | some caps => some (acc.reverse :: caps)
    | none => if c = 10 then none else lazyGroup k false (c :: acc) s

/-- Match a token list at the current position; `atStart` tells whether the
position is the beginning of the text. Returns the captures in group order. -/
def matchHere : List Tok → Bool → Bytes → Option (List Bytes)
  | [], _, _ => some []
  | Tok.bol :: ts, atStart, s => if atStart then matchHere ts atStart s else none
  | Tok.eol :: ts, atStart, s => if s = [] then matchHere ts atStart s else none
  | Tok.lit b :: ts, _, s =>
    match s with
    | c :: s1 => if b = c then matchHere ts false s1 else none
    | [] => none
  | Tok.group :: ts, atStart, s => lazyGroup (matchHere ts) atStart [] s

/-- Leftmost match search from every start position of the text. -/
def searchFrom (toks : List Tok) (atStart : Bool) : Bytes → Option (List Bytes)
  | [] => matchHere toks atStart []
  | c :: s =>
    match matchHere toks atStart (c :: s) with
    | some caps => some caps
    | none => searchFrom toks false s

/-- Go `re.FindStringSubmatch(text)`, without the whole match: the captured
groups of the leftmost match, `none` when the text has no match. -/
def Regexp.FindStringSubmatch (re : Regexp) (text : Bytes) : Option (List Bytes) :=
  searchFrom re.toks true text

/-! ## Reflection: types and values -/

/-- Go `reflect.Kind`. -/
inductive Kind where
  | Invalid | Bool | Int | Int8 | Int16 | Int32 | Int64
  | Uint | Uint8 | Uint16 | Uint32 | Uint64 | Uintptr
  | Float32 | Float64 | Complex64 | Complex128
  | Array | Chan | Func | Interface | Map | Pointer | Slice | String | Struct
  | UnsafePointer
  deriving DecidableEq, Repr

/-- Go `reflect.Type` as far as this file observes it: the text `String()`
returns, the kind, and the element and key types of the composite kinds. Two
types that agree in all of these are not told apart. -/
inductive GoType where
  /-- A type without element type (basic types, structs, interfaces, funcs). -/
  | basic (str : String) (kind : Kind)
  /-- A pointer type. -/
  | ptr (str : String) (elem : GoType)
  /-- A slice type. -/
  | slice (str : String) (elem : GoType)
  /-- An array type. -/
  | array (str : String) (elem : GoType)
  /-- A channel type. -/
  | chan (str : String) (elem : GoType)
  /-- A map type. -/
  | map (str : String) (key elem : GoType)
  deriving DecidableEq, Repr

/-- Go `t.String()`. -/
def GoType.String : GoType → String
  | .basic str _ => str
  | .ptr str _ => str
  | .slice str _ => str
  | .array str _ => str
  | .chan str _ => str
  | .map str _ _ => str

/-- Go `t.Kind()`. -/
def GoType.Kind : GoType → Kind
  | .basic _ kind => kind
  | .ptr _ _ => Kind.Pointer
  | .slice _ _ => Kind.Slice
  | .array _ _ => Kind.Array
  | .chan _ _ => Kind.Chan
  | .map _ _ _ => Kind.Map

/-- Go `t.Elem()`, defined for pointers, slices, arrays, channels and maps. -/
def GoType.Elem : GoType → Option GoType
  | .basic _ _ => none
  | .ptr _ e => some e
  | .slice _ e => some e
  | .array _ e => some e
  | .chan _ e => some e
  | .map _ _ e => some e

/-- Go `t.Key()`, defined for maps. -/
def GoType.Key : GoType → Option GoType
  | .map _ k _ => some k
  | _ => none

/-- The test `t.Elem().Kind() == k`, used where `t` has an element type. -/
def GoType.elemKindIs (t : GoType) (k : WebService.Kind) : Bool :=
  match t.Elem with
  | some e => e.Kind = k
  | none => false

/-- A non-nil `interface{}` value: its dynamic type and a representation of
its content. The nil interface is `none : Option Obj`. -/
structure Obj where
  typ : GoType
  repr : Bytes
  deriving DecidableEq, Repr

/-- Go `string`. -/
def stringType : GoType := .basic "string" Kind.String

/-- The Go value `""` as an `interface{}`. -/
def emptyString : Obj := ⟨stringType, []⟩

/-- Go `interface{}`, the empty interface type. -/
def emptyInterface : GoType := .basic "interface {}" Kind.Interface

/-- Go `map[string]interface{}`. -/
def stringKeyedMap : GoType := .map "map[string]interface {}" stringType emptyInterface

/-- Go `*http.Request`. -/
def requestPtrType : GoType := .ptr "*http.Request" (.basic "http.Request" Kind.Struct)

/-- Go `*http.Header`; `http.Header` is a `map[string][]string`. -/
def headerPtrType : GoType :=
  .ptr "*http.Header" (.map "http.Header" stringType (.slice "[]string" stringType))

/-- Go `*log.Logger` of the package `github.com/ssgo/log`. -/
def loggerPtrType : GoType := .ptr "*log.Logger" (.basic "log.Logger" Kind.Struct)

/-- Go `*discover.Caller`. -/
def callerPtrType : GoType := .ptr "*discover.Caller" (.basic "discover.Caller" Kind.Struct)

/-- Go `map[string]interface{}` content: the merged parameter bag. -/
abbrev Bag := List (Bytes × Option Obj)

/-- Go `reflect.Value`, for the values the binder produces. -/
inductive Value where
  /-- The zero `reflect.Value`, of kind `Invalid`. -/
  | invalid
  /-- The call `reflect.ValueOf(args).Elem()`: the parameter bag. -/
  | args (bag : Bag)
  /-- The call `reflect.ValueOf(in).Elem()`: the value of type `t` that
  `mapstructure.WeakDecode` filled from the bag. -/
  | decoded (t : GoType) (bag : Bag)
  /-- The call `reflect.ValueOf(&request.Header)`. -/
  | header (request : Nat)
  /-- The call `reflect.ValueOf(request)`. -/
  | request (request : Nat)
  /-- The call `reflect.ValueOf(*response)` for a non-nil writer. -/
  | writer (w : Obj)
  /-- The call `reflect.ValueOf(requestLogger)`. -/
  | logger (logger : Nat)
  /-- The call `reflect.ValueOf(caller)` for the caller built on the request. -/
  | caller (request : Nat)
  /-- The call `reflect.ValueOf(obj)` for a non-nil session or injected object. -/
  | object (o : Obj)
  /-- The call `reflect.New(t).Elem()`: the zero value of type `t`. -/
  | zero (t : GoType)
  deriving DecidableEq, Repr

/-- The test `v.Kind() == reflect.Invalid`. -/
def Value.isInvalid : Value → Bool
  | .invalid => true
  | _ => false

/-- Go `reflect.ValueOf(i)` for an `interface{}` holding a response writer:
the zero Value for the nil interface. -/
def valueOfWriter : Option Obj → Value
  | none => Value.invalid
  | some w => Value.writer w

/-- Go `v.Type()` of a valid value; the zero Value has none. -/
def Value.goType : Value → Option GoType
  | .invalid => none
  | .args _ => some stringKeyedMap
  | .decoded t _ => some t
  | .header _ => some headerPtrType
  | .request _ => some requestPtrType
  | .writer w => some w.typ
  | .logger _ => some loggerPtrType
  | .caller _ => some callerPtrType
  | .object o => some o.typ
  | .zero t => some t

/-- A non-nil `interface{}` handed to registration as `serviceFunc`. -/
structure Service where
  /-- Go `reflect.TypeOf(serviceFunc)`. -/
  typ : GoType
  /-- The parameter types `funcType.In(i)`, for a value of kind `Func`. -/
  ins : List GoType
  /-- The body of the function on arguments it is called with: the values it
  returns, each read with `Interface()`, or `none` when it panics. -/
  call : List Value → Option (List (Option Obj))
  /-- Go `funcType.IsVariadic()`: the last parameter is a `...T`, whose type
  `In(i)` is the slice `[]T`. -/
  variadic : Bool := false
  /-- The function value is the nil function. -/
  isNil : Bool := false

/-! ## The route registry -/

/-- Go `webServiceType`. -/
structure webServiceType where
  authLevel : Int
  priority : Int
  method : Bytes
  path : Bytes
  pathMatcher : Option Regexp
  pathArgs : List Bytes
  parmsNum : Nat
  inType : Option GoType
  inIndex : Int
  headersIndex : Int
  requestIndex : Int
  responseIndex : Int
  loggerIndex : Int
  callerIndex : Int
  funcType : List GoType
  funcValue : Service

/-- One iteration of the loop of `makeCachedService` (lines 276-292) for the
parameter `i` of type `t`. -/
def planStep (i : Nat) (t : GoType) (targetService : webServiceType) : webServiceType :=
  if t.String = "*http.Request" then { targetService with requestIndex := i }
  else if t.String = "http.ResponseWriter" then { targetService with responseIndex := i }
  else if t.String = "*log.Logger" then { targetService with loggerIndex := i }
  else if t.String = "*http.Header" then { targetService with headersIndex := i }
  else if t.String = "*discover.Caller" then { targetService with callerIndex := i }
  else if t.Kind = Kind.Struct ∨ (t.Kind = Kind.Map ∧ t.elemKindIs Kind.Interface) then
    if targetService.inType = none then
      { targetService with inIndex := i, inType := some t }
    else targetService
  else targetService

/-- The loop of `makeCachedService` from index `i` on, over the parameter
types still to visit. -/
def planLoop : Nat → List GoType → webServiceType → webServiceType
  | _, [], targetService => targetService
  | i, t :: ts, targetService => planLoop (i + 1) ts (planStep i t targetService)

/-- Lines 267-274 and 295-296 of `makeCachedService`: the new descriptor with
every index at -1; the loop does not touch `funcType` and `funcValue`, which
are set here. -/
def newService (f : Service) : webServiceType :=
  { authLevel := 0, priority := 0, method := [], path := [], pathMatcher := none,
    pathArgs := [], parmsNum := f.ins.length, inType := none, inIndex := -1,
    headersIndex := -1, requestIndex := -1, responseIndex := -1, loggerIndex := -1,
    callerIndex := -1, funcType := f.ins, funcValue := f }

/-- Go `makeCachedService`. The outer `none` is a run-time panic (the nil
pointer dereference of `funcType.Kind()` when `reflect.TypeOf` returned nil);
`Except.error` is the returned error, `Except.ok` the returned descriptor. -/
def makeCachedService (matchedServie : Option Service) : Option (Except String webServiceType) :=
  match matchedServie with
  | none => none
  | some f =>
    if f.typ.Kind ≠ Kind.Func then some (Except.error "bad Service")
    else some (Except.ok (planLoop 0 f.ins (newService f)))

/-- What `logError` is called with. -/
inductive LogEntry where
  /-- The error of `makeCachedService`, line 121. -/
  | badService (msg : String) (authLevel priority : Int) (path method : Bytes)
  /-- The error of the pattern compilation, line 140. -/
  | compileError (authLevel priority : Int) (path method : Bytes)
  deriving DecidableEq, Repr

/-- The package-level registry: `webServices`, `regexWebServices` and the
error log `logError` writes to. -/
structure Registry where
  webServices : Bytes → Option webServiceType
  regexWebServices : List webServiceType
  errorLog : List LogEntry

/-- Lines 131-136: the quoted path with the matches of the finder replaced. -/
def keyNameOf (path : Bytes) : Bytes :=
  replaceFinds (QuoteMeta path) (FindAllStringSubmatch 20 path)

/-- Lines 133-136: the captured names appended to `pathArgs`. -/
def pathArgsOf (path : Bytes) : List Bytes :=
  (FindAllStringSubmatch 20 path).map (fun found => found.2)

/-- Go `RestfulWithPriority`. `none` is a run-time panic. The finder
`regexp.Compile("{(.*?)}")` of line 129 always compiles, so the branch of
line 130 is always taken. -/
def RestfulWithPriority (reg : Registry) (authLevel priority : Int) (method path : Bytes)
    (serviceFunc : Option Service) : Option Registry :=
  match makeCachedService serviceFunc with
  | none => none
  | some (Except.error err) =>
    some { reg with
      errorLog := reg.errorLog ++ [LogEntry.badService err authLevel priority path method] }
  | some (Except.ok s0) =>
    let s1 : webServiceType :=
      { s0 with authLevel := authLevel, priority := priority, method := method, path := path,
                pathArgs := s0.pathArgs ++ pathArgsOf path }
    let compiled := regexpCompile ([94] ++ keyNameOf path ++ [36])
    let s2 : webServiceType :=
      if 0 < s1.pathArgs.length then { s1 with pathMatcher := compiled } else s1
    let reg1 : Registry :=
      if 0 < s1.pathArgs.length then
        { reg with
          errorLog :=
            if compiled.isNone then
              reg.errorLog ++ [LogEntry.compileError authLevel priority path method]
            else reg.errorLog
          regexWebServices := reg.regexWebServices ++ [s2] }
      else reg
    if s2.pathMatcher.isNone then
      some { reg1 with
        webServices := fun k => if k = method ++ path then some s2 else reg1.webServices k }
    else some reg1

/-! ## Session and injection stores -/

/-- The package-level stores `sessionObjects` (per request, by type) and
`injectObjects` (by type). A missing key reads as the nil interface. -/
structure Stores where
  sessionObjects : Nat → Option (GoType → Option Obj)
  injectObjects : GoType → Option Obj

/-- Go `SetSessionInject`. The key is `reflect.TypeOf(obj)`; for the nil
interface the key is the nil type, which no declared type equals, so only the
creation of the inner map is visible. -/
def SetSessionInject (st : Stores) (request : Nat) (obj : Option Obj) : Stores :=
  let inner : GoType → Option Obj :=
    match st.sessionObjects request with
    | none => fun _ => none
    | some m => m
  let inner1 : GoType → Option Obj :=
    match obj with
    | none => inner
    | some o => fun t => if t = o.typ then some o else inner t
  { st with sessionObjects := fun r => if r = request then some inner1 else st.sessionObjects r }

/-- Go `GetSessionInject`. -/
def GetSessionInject (st : Stores) (request : Nat) (dataType : GoType) : Option Obj :=
  match st.sessionObjects request with
  | none => none
  | some m => m dataType

/-- Go `SetInject`. -/
def SetInject (st : Stores) (obj : Option Obj) : Stores :=
  match obj with
  | none => st
  | some o => { st with injectObjects := fun t => if t = o.typ then some o else st.injectObjects t }

/-- Go `GetInject`. -/
def GetInject (st : Stores) (dataType : GoType) : Option Obj :=
  st.injectObjects dataType

/-! ## The argument binder -/

/-- What the collaborators of `doWebService` do, as far as it depends on
them: whether `mapstructure.WeakDecode` of a bag into a type returns an error,
whether the type of an injected object has a method `SetLogger` with one
parameter of type `*log.Logger` (the test of line 224), and the two parts of
`reflect`'s assignability that depend on what `GoType` does not record:
whether a type implements an interface type, and whether two different types
of one kind with the same key and element types have identical underlying
types, not both of them named. -/
structure Ext where
  decodeFails : Bag → GoType → Bool
  hasSetLogger : GoType → Bool
  implements : GoType → GoType → Bool
  directlyAssignable : GoType → GoType → Bool

/-- The arguments `request`, `response`, `args` and `requestLogger` of
`doWebService`. The pointers are the addresses the dispatcher takes of its
own variables; `response` is the writer `*response`, `none` when that
interface is nil. -/
structure RequestState where
  request : Nat
  response : Option Obj
  args : Bag
  requestLogger : Nat

/-- Observable effects of `doWebService`, in order. -/
inductive Event where
  /-- The call `requestLogger.Error` of line 189. -/
  | decodeError (t : GoType)
  /-- The call `GetSessionInject(request, st)`. -/
  | sessionLookup (request : Nat) (t : GoType)
  /-- The call `GetInject(st)`. -/
  | injectLookup (t : GoType)
  /-- The call of `SetLogger` on an injected object, line 225; the call is
  recorded, what it does is not modelled. -/
  | setLogger (o : Obj) (logger : Nat)
  /-- The call of the handler, line 237. -/
  | call (parms : List Value)
  deriving DecidableEq, Repr

/-- Go `parms[i] = v` for an `int` index: `none` is the index-out-of-range
panic. -/
def setParm (parms : List Value) (i : Int) (v : Value) : Option (List Value) :=
  if 0 ≤ i ∧ i.toNat < parms.length then some (parms.set i.toNat v) else none

/-- Go `if index >= 0 { parms[index] = v }`. -/
def setIfBound (parms : List Value) (i : Int) (v : Value) : Option (List Value) :=
  if 0 ≤ i then setParm parms i v else some parms

/-- Lines 182-193: the Body slot. -/
def bindBody (ext : Ext) (service : webServiceType) (rq : RequestState) (parms : List Value) :
    Option (List Value × List Event) :=
  match service.inType with
  | none => some (parms, [])
  | some t =>
    if t.Kind = Kind.Map ∧ t.elemKindIs Kind.Interface then
      (setParm parms service.inIndex (Value.args rq.args)).map (fun p => (p, []))
    else
      (setParm parms service.inIndex (Value.decoded t rq.args)).map
        (fun p => (p, if ext.decodeFails rq.args t then [Event.decodeError t] else []))

/-- Lines 194-209: the five marker slots. -/
def bindMarkers (service : webServiceType) (rq : RequestState) (parms : List Value) :
    Option (List Value) := do
  let p1 ← setIfBound parms service.headersIndex (Value.header rq.request)
  let p2 ← setIfBound p1 service.requestIndex (Value.request rq.request)
  let p3 ← setIfBound p2 service.responseIndex (valueOfWriter rq.response)
  let p4 ← setIfBound p3 service.loggerIndex (Value.logger rq.requestLogger)
  setIfBound p4 service.callerIndex (Value.caller rq.request)

/-- Lines 212-234: the value for a slot still invalid, of declared type `st`. -/
def fillSlot (ext : Ext) (stores : Stores) (rq : RequestState) (st : GoType) :
    Value × List Event :=
  if st.Kind = Kind.Struct ∨ (st.Kind = Kind.Pointer ∧ st.elemKindIs Kind.Struct) then
    match GetSessionInject stores rq.request st with
    | some sessObj => (Value.object sessObj, [Event.sessionLookup rq.request st])
    | none =>
      match GetInject stores st with
      | some injectObj =>
        (Value.object injectObj,
          [Event.sessionLookup rq.request st, Event.injectLookup st] ++
          (if ext.hasSetLogger injectObj.typ then [Event.setLogger injectObj rq.requestLogger]
           else []))
      | none => (Value.zero st, [Event.sessionLookup rq.request st, Event.injectLookup st])
  else (Value.zero st, [])

/-- The loop of lines 210-236 over the slots not yet visited, with the
declared types of these slots (`funcType.In(i)` panics when there is none).
A slot that is valid is kept; the loop writes only the slot it visits. -/
def fillLoop (ext : Ext) (stores : Stores) (rq : RequestState) :
    List Value → List GoType → Option (List Value × List Event)
  | [], _ => some ([], [])
  | parm :: rest, ins =>
    if parm.isInvalid then
      match ins with
      | [] => none
      | st :: ins1 =>
        match fillLoop ext stores rq rest ins1 with
        | none => none
        | some (vs, evs) =>
          some ((fillSlot ext stores rq st).1 :: vs, (fillSlot ext stores rq st).2 ++ evs)
    else
      match fillLoop ext stores rq rest ins.tail with
      | none => none
      | some (vs, evs) => some (parm :: vs, evs)

/-- Lines 181-236 of `doWebService`: the argument list and the effects of
building it. `none` is a run-time panic. -/
def buildParms (ext : Ext) (stores : Stores) (service : webServiceType) (rq : RequestState) :
    Option (List Value × List Event) := do
  let parms := List.replicate service.parmsNum Value.invalid
  let (p1, ev1) ← bindBody ext service rq parms
  let p2 ← bindMarkers service rq p1
  let (p3, ev3) ← fillLoop ext stores rq p2 service.funcType
  pure (p3, ev1 ++ ev3)

/-- Go `xt.AssignableTo(targ)`: identical types; or `targ` is an interface type
that `xt` implements; or types of the same kind, with identical key and
element types, whose underlying types are identical and which are not both
named. -/
def assignableTo (ext : Ext) (xt targ : GoType) : Bool :=
  xt = targ ||
  (targ.Kind = Kind.Interface && ext.implements xt targ) ||
  (xt.Kind = targ.Kind && xt.Key = targ.Key && xt.Elem = targ.Elem &&
    ext.directlyAssignable xt targ)

/-- The argument `v` may be passed for a parameter of type `targ`. -/
def valueAssignable (ext : Ext) (v : Value) (targ : GoType) : Bool :=
  match v.goType with
  | none => false
  | some xt => assignableTo ext xt targ

/-- The arguments, one for each parameter type, are all assignable. -/
def argsAssignable (ext : Ext) : List Value → List GoType → Bool
  | [], [] => true
  | v :: vs, t :: ts => valueAssignable ext v t && argsAssignable ext vs ts
  | _, _ => false

/-- The checks of `reflect.Value.Call` before the function is entered; when
one fails, `Call` panics. The function is not nil and no argument is the zero
Value. For a function that is not variadic there is one argument for each
parameter, assignable to its type. For a variadic function the arguments
before the last parameter are assignable to their parameter types and every
further argument is assignable to the element type of the last parameter. -/
def callAccepts (ext : Ext) (f : Service) (parms : List Value) : Bool :=
  !f.isNil && parms.all (fun v => !v.isInvalid) &&
  (if f.variadic then
    match f.ins.getLast? with
    | none => false
    | some last =>
      match last.Elem with
      | none => false
      | some elem =>
        decide (f.ins.length - 1 ≤ parms.length) &&
        argsAssignable ext (parms.take (f.ins.length - 1)) f.ins.dropLast &&
        (parms.drop (f.ins.length - 1)).all (fun v => valueAssignable ext v elem)
  else argsAssignable ext parms f.ins)

/-- How a call of `doWebService` ends. -/
inductive Outcome where
  /-- It returns `webResult`. -/
  | result (webResult : Option Obj)
  /-- It panics. -/
  | panic
  deriving DecidableEq, Repr

/-- Go `doWebService`: how the call ends and its effects, in order. A panic
of the binder, of the checks of `reflect.Value.Call` (line 237) or of the
handler is not recovered here. The handler is entered only when `Call`
accepts the arguments. -/
def doWebService (ext : Ext) (stores : Stores) (service : webServiceType) (rq : RequestState)
    (result : Option Obj) : Outcome × List Event :=
  match result with
  | some r => (Outcome.result (some r), [])
  | none =>
    match buildParms ext stores service rq with
    | none => (Outcome.panic, [])
    | some (parms, evs) =>
      if callAccepts ext service.funcValue parms then
        match service.funcValue.call parms with
        | none => (Outcome.panic, evs ++ [Event.call parms])
        | some (out :: _) => (Outcome.result out, evs ++ [Event.call parms])
        | some [] => (Outcome.result (some emptyString), evs ++ [Event.call parms])
      else (Outcome.panic, evs)

/-! ## Response encoding -/

/-- Go `json.Marshal(data)`: the bytes and whether an error is returned. The
encoder `enc` of the non-nil values is a collaborator; the nil interface
encodes to the token `null`. -/
def jsonMarshal (enc : Obj → Bytes × Bool) : Option Obj → Bytes × Bool
  | none => ([110, 117, 108, 108], false)
  | some d => enc d

/-- Go `reflect.TypeOf(data)`: nil for the nil interface. -/
def typeOf : Option Obj → Option GoType
  | none => none
  | some d => some d.typ

/-- Lines 301-310 of `makeBytesResult`: the bytes handed to
`u.FixUpperCase`. `none` is a run-time panic (`t.Kind()` on the nil type). -/
def encodeResult (enc : Obj → Bytes × Bool) (data : Option Obj) : Option Bytes :=
  let bytesResult := (jsonMarshal enc data).1
  let err := (jsonMarshal enc data).2
  if err ∨ (bytesResult.length = 4 ∧ bytesResult = [110, 117, 108, 108]) then
    match typeOf data with
    | none => none
    | some t =>
      let b1 := if t.Kind = Kind.Slice then [91, 93] else bytesResult
      let b2 := if t.Kind = Kind.Map then [123, 125] else b1
      some b2
  else some bytesResult

/-- Go `makeBytesResult`; `fixUpperCase` is the rewriting `u.FixUpperCase`
does in place. -/
def makeBytesResult (enc : Obj → Bytes × Bool) (fixUpperCase : Bytes → Bytes)
    (data : Option Obj) : Option Bytes :=
  (encodeResult enc data).map fixUpperCase

/-! ## Terms of the specification -/

/-- A path contains a placeholder `{name}`: an opening brace, a name without
newline, a closing brace. -/
def HasPlaceholder (path : Bytes) : Prop :=
  ∃ pre name post : Bytes, path = pre ++ 123 :: name ++ 125 :: post ∧ 10 ∉ name

/-- The registry before any registration. -/
def emptyRegistry : Registry :=
  { webServices := fun _ => none, regexWebServices := [], errorLog := [] }

/-- A handler `func(name string) string` that returns the empty string. -/
def greetFunc : Service :=
  { typ := .basic "func(string) string" Kind.Func
    ins := [stringType]
    call := fun _ => some [some emptyString] }

/-- Go `int`. -/
def intType : GoType := .basic "int" Kind.Int

/-- Go `map[int]interface{}`. -/
def intKeyedMap : GoType := .map "map[int]interface {}" intType emptyInterface

/-- A struct type `s.Point`. -/
def pointType : GoType := .basic "s.Point" Kind.Struct

/-- One of the five marker types, recognised by name in `makeCachedService`. -/
def isMarker (t : GoType) : Bool :=
  t.String = "*http.Request" || t.String = "http.ResponseWriter" || t.String = "*log.Logger" ||
  t.String = "*http.Header" || t.String = "*discover.Caller"

/-- The test of line 287 on a type that is no marker: what the code binds to
Body. -/
def bodyCandidate (t : GoType) : Bool :=
  !isMarker t && (t.Kind = Kind.Struct || (t.Kind = Kind.Map && t.elemKindIs Kind.Interface))

/-- From the words of the specification: struct-like, or a string-keyed
generic map of interface values, and none of the five marker types. -/
def specBodyLike (t : GoType) : Bool :=
  !isMarker t &&
  (t.Kind = Kind.Struct ||
    (t.Kind = Kind.Map && t.elemKindIs Kind.Interface &&
      (match t.Key with
       | some k => decide (k.Kind = Kind.String)
       | none => false)))

/-- A handler `func(m map[int]interface{}, in s.Point) string`. -/
def intMapFunc : Service :=
  { typ := .basic "func(map[int]interface {}, s.Point) string" Kind.Func
    ins := [intKeyedMap, pointType]
    call := fun _ => some [some emptyString] }

/-- Every index of the plan is -1 or a position below `n`, and the Body index
is a position when a Body type is recorded. -/
def PlanBounds (n : Nat) (s : webServiceType) : Prop :=
  (s.inType = none ∨ 0 ≤ s.inIndex) ∧
  (-1 ≤ s.inIndex ∧ s.inIndex < n) ∧
  (-1 ≤ s.headersIndex ∧ s.headersIndex < n) ∧
  (-1 ≤ s.requestIndex ∧ s.requestIndex < n) ∧
  (-1 ≤ s.responseIndex ∧ s.responseIndex < n) ∧
  (-1 ≤ s.loggerIndex ∧ s.loggerIndex < n) ∧
  (-1 ≤ s.callerIndex ∧ s.callerIndex < n)

/-- The parameter `i` is left unbound by the plan: no index field that the
binder writes through holds `i`. -/
def unboundAt (s : webServiceType) (i : Nat) : Prop :=
  (s.inType = none ∨ s.inIndex ≠ i) ∧ s.headersIndex ≠ i ∧ s.requestIndex ≠ i ∧
  s.responseIndex ≠ i ∧ s.loggerIndex ≠ i ∧ s.callerIndex ≠ i

/-- The event is the call of the handler. -/
def Event.isCall : Event → Bool
  | .call _ => true
  | _ => false

/-- The event is a lookup in a store or a call of `SetLogger`. -/
def Event.isInjection : Event → Bool
  | .sessionLookup _ _ => true
  | .injectLookup _ => true
  | .setLogger _ _ => true
  | _ => false

/-- The stores before any registration. -/
def emptyStores : Stores :=
  { sessionObjects := fun _ => none, injectObjects := fun _ => none }

/-- No decode error, no `SetLogger` method; between different types, every
type implements the empty interface `interface{}` and nothing else is
assignable. -/
def plainExt : Ext :=
  { decodeFails := fun _ _ => false, hasSetLogger := fun _ => false,
    implements := fun _ t => t = emptyInterface, directlyAssignable := fun _ _ => false }

/-- A request with a writer, an empty bag and a logger. -/
def sampleRequest : RequestState :=
  { request := 7, response := some ⟨.ptr "*s.Response" (.basic "s.Response" Kind.Struct), []⟩,
    args := [], requestLogger := 3 }

/-- A pointer type `*s.Session`. -/
def sessionPtrType : GoType := .ptr "*s.Session" (.basic "s.Session" Kind.Struct)

/-- A handler `func(n int, u *s.Session) string` that returns the empty
string. -/
def countFunc : Service :=
  { typ := .basic "func(int, *s.Session) string" Kind.Func
    ins := [intType, sessionPtrType]
    call := fun _ => some [some emptyString] }

instance (s : webServiceType) (i : Nat) : Decidable (unboundAt s i) := by
  unfold unboundAt
  exact inferInstance

/-- The declared type is a struct or a pointer to a struct, the test of
line 214. -/
def structOrPtr (t : GoType) : Prop :=
  t.Kind = Kind.Struct ∨ (t.Kind = Kind.Pointer ∧ t.elemKindIs Kind.Struct = true)

/-- Go `http.ResponseWriter`. -/
def responseWriterType : GoType := .basic "http.ResponseWriter" Kind.Interface

/-- A handler `func(w http.ResponseWriter, u *s.Session) string` that returns
the empty string. -/
def writerFunc : Service :=
  { typ := .basic "func(http.ResponseWriter, *s.Session) string" Kind.Func
    ins := [responseWriterType, sessionPtrType]
    call := fun _ => some [some emptyString] }

/-- Go `[]string`. -/
def stringSliceType : GoType := .slice "[]string" stringType

/-- A variadic handler `func(names ...string) string` that returns the empty
string. -/
def variadicFunc : Service :=
  { typ := .basic "func(...string) string" Kind.Func
    ins := [stringSliceType]
    call := fun _ => some [some emptyString]
    variadic := true }

/-- A request whose response writer is the nil interface. -/
def nilWriterRequest : RequestState :=
  { request := 7, response := none, args := [], requestLogger := 3 }

/-- An `int` held in an `interface{}`. -/
def intObj : Obj := ⟨intType, [5]⟩

/-- A `*s.Session` held in an `interface{}`. -/
def sessionObj : Obj := ⟨sessionPtrType, [1]⟩

/-- Another `*s.Session` held in an `interface{}`. -/
def singletonObj : Obj := ⟨sessionPtrType, [2]⟩

/-- From the words of the specification, in one pass from left to right:
every literal byte escaped and each of the first `n` placeholders replaced by
the wildcard `(.*?)`. -/
def renderSpec : Nat → Bytes → Bytes
  | 0, path => QuoteMeta path
  | n + 1, path =>
    match findOne path with
    | none => QuoteMeta path
    | some (gap, _, rest) => QuoteMeta gap ++ wildcard ++ renderSpec n rest

/-- From the words of the specification: the pattern as tokens, every literal
byte taken literally and each of the first `n` placeholders a capture group. -/
def specToks : Nat → Bytes → List Tok
  | 0, path => path.map Tok.lit
  | n + 1, path =>
    match findOne path with
    | none => path.map Tok.lit
    | some (gap, _, rest) => gap.map Tok.lit ++ Tok.group :: specToks n rest

/-- All the matches of the finder in a path, Go
`finder.FindAllStringSubmatch(path, -1)`: a match takes at least two bytes,
so the length of the path bounds their number. -/
def allFinds (path : Bytes) : List (Bytes × Bytes) :=
  FindAllStringSubmatch path.length path

/-- The already rewritten part of `keyName`: quoted literal text, each piece
followed by a wildcard. -/
def render : List Bytes → Bytes
  | [] => []
  | g :: gs => QuoteMeta g ++ wildcard ++ render gs

/-- No occurrence of `X` starts inside `a` in the text `a ++ s`. -/
def NoOcc (X a s : Bytes) : Prop :=
  ∀ a1 a2 : Bytes, a = a1 ++ a2 → a2 ≠ [] → ¬ X <+: a2 ++ s

/-- A path with 21 placeholders `{}`. -/
def manyPlaceholders : Bytes := (List.replicate 21 [123, 125]).flatten

/-- Only parameters of a marker type are recorded in the five marker
indexes. -/
def MarkerSlots (ins : List GoType) (s : webServiceType) : Prop :=
  ∀ (j : Nat) (t : GoType), ins[j]? = some t →
    (s.headersIndex = j ∨ s.requestIndex = j ∨ s.responseIndex = j ∨ s.loggerIndex = j ∨
      s.callerIndex = j) → isMarker t = true

/-! ## The finder -/

theorem closeBrace_spec : ∀ (s name rest : Bytes), closeBrace s = some (name, rest) →
    s = name ++ 125 :: rest ∧ 10 ∉ name ∧ 125 ∉ name
  | [], _, _, h => by simp [closeBrace] at h
  | b :: s, name, rest, h => by
    unfold closeBrace at h
    split at h
    · next hb =>
      simp only [Option.some.injEq, Prod.mk.injEq] at h
      obtain ⟨h1, h2⟩ := h
      subst h1 h2 hb
      simp
    · next hb =>
      split at h
      · simp at h
      · next hn =>
        cases hc : closeBrace s with
        | none => simp [hc] at h
        | some p =>
          obtain ⟨n, r⟩ := p
          simp only [hc, Option.some.injEq, Prod.mk.injEq] at h
          obtain ⟨h1, h2⟩ := h
          subst h1 h2
          obtain ⟨e, h10, h125⟩ := closeBrace_spec s n r hc
          refine ⟨by simp [e], ?_, ?_⟩
          · simp only [List.mem_cons, not_or]
            exact ⟨fun h => hn h.symm, h10⟩
          · simp only [List.mem_cons, not_or]
            exact ⟨fun h => hb h.symm, h125⟩

theorem closeBrace_of_append : ∀ (name post : Bytes), 10 ∉ name →
    ∃ n r, closeBrace (name ++ 125 :: post) = some (n, r)
  | [], post, _ => ⟨[], post, by simp [closeBrace]⟩
  | b :: name, post, h => by
    simp only [List.mem_cons, not_or] at h
    obtain ⟨n, r, hc⟩ := closeBrace_of_append name post h.2
    by_cases hb : b = 125
    · exact ⟨[], name ++ 125 :: post, by simp [closeBrace, hb]⟩
    · refine ⟨b :: n, r, ?_⟩
      have h10 : ¬ b = 10 := fun e => h.1 e.symm
      simp [closeBrace, hb, h10, hc]

theorem findOne_spec : ∀ (path gap name rest : Bytes), findOne path = some (gap, name, rest) →
    path = gap ++ 123 :: name ++ 125 :: rest ∧ 10 ∉ name ∧ 125 ∉ name
  | [], _, _, _, h => by simp [findOne] at h
  | b :: s, gap, name, rest, h => by
    unfold findOne at h
    split at h
    · next n r hm =>
      simp only [Option.some.injEq, Prod.mk.injEq] at h
      obtain ⟨h1, h2, h3⟩ := h
      subst h1 h2 h3
      by_cases hb : b = 123
      · simp only [hb, if_true] at hm
        obtain ⟨e, h10, h125⟩ := closeBrace_spec s n r hm
        exact ⟨by simp [hb, e], h10, h125⟩
      · simp [hb] at hm
    · cases hf : findOne s with
      | none => simp [hf] at h
      | some p =>
        obtain ⟨g, n, r⟩ := p
        simp only [hf, Option.some.injEq, Prod.mk.injEq] at h
        obtain ⟨h1, h2, h3⟩ := h
        subst h1 h2 h3
        obtain ⟨e, h10, h125⟩ := findOne_spec s g n r hf
        exact ⟨by simp [e], h10, h125⟩

theorem findOne_of_placeholder : ∀ (pre name post : Bytes), 10 ∉ name →
    findOne (pre ++ 123 :: name ++ 125 :: post) ≠ none
  | [], name, post, h => by
    obtain ⟨n, r, hc⟩ := closeBrace_of_append name post h
    simp [findOne, hc]
  | b :: pre, name, post, h => by
    have ih := findOne_of_placeholder pre name post h
    simp only [List.cons_append]
    unfold findOne
    split
    · simp
    · cases hf : findOne (pre ++ 123 :: name ++ 125 :: post) with
      | none => exact absurd hf ih
      | some p => simp

/-- The finder has a match exactly on the paths with a placeholder. -/
theorem findOne_eq_none_iff (path : Bytes) : findOne path = none ↔ ¬ HasPlaceholder path := by
  constructor
  · rintro h ⟨pre, name, post, e, h10⟩
    exact findOne_of_placeholder pre name post h10 (e ▸ h)
  · intro h
    cases hf : findOne path with
    | none => rfl
    | some p =>
      obtain ⟨g, n, r⟩ := p
      obtain ⟨e, h10, _⟩ := findOne_spec path g n r hf
      exact absurd ⟨g, n, r, e, h10⟩ h

theorem pathArgsOf_eq_nil_iff (path : Bytes) : pathArgsOf path = [] ↔ ¬ HasPlaceholder path := by
  rw [← findOne_eq_none_iff]
  unfold pathArgsOf FindAllStringSubmatch
  cases hf : findOne path with
  | none => simp
  | some p => obtain ⟨g, n, r⟩ := p; simp

/-! ## Replacement in the quoted path -/

theorem hasPrefix_iff : ∀ (p s : Bytes), hasPrefix p s = true ↔ p <+: s
  | [], s => by simp [hasPrefix]
  | a :: p, [] => by simp [hasPrefix]
  | a :: p, b :: s => by simp [hasPrefix, hasPrefix_iff p s]

theorem QuoteMeta_append : ∀ (a b : Bytes),
    QuoteMeta (a ++ b) = QuoteMeta a ++ QuoteMeta b
  | [], b => rfl
  | c :: a, b => by
    simp only [List.cons_append, QuoteMeta]
    split <;> simp [QuoteMeta_append a b]

theorem QuoteMeta_eq_nil (f : Bytes) (h : QuoteMeta f = []) : f = [] := by
  cases f with
  | nil => rfl
  | cons a f =>
    simp only [QuoteMeta] at h
    split at h <;> simp at h

theorem replaceFirst_cons (X W : Bytes) (b : Nat) (s : Bytes) :
    replaceFirst X W (b :: s) =
      if hasPrefix X (b :: s) then W ++ (b :: s).drop X.length
      else b :: replaceFirst X W s := rfl

theorem replaceFirst_skip (X W : Bytes) : ∀ (a s : Bytes), NoOcc X a s →
    replaceFirst X W (a ++ s) = a ++ replaceFirst X W s
  | [], _, _ => rfl
  | c :: a, s, h => by
    have h1 : ¬ hasPrefix X (c :: (a ++ s)) = true := by
      rw [hasPrefix_iff]
      exact h [] (c :: a) rfl (by simp)
    have h2 : NoOcc X a s := fun a1 a2 e ne => h (c :: a1) a2 (by simp [e]) ne
    rw [List.cons_append, replaceFirst_cons, if_neg h1, replaceFirst_skip X W a s h2]
    rfl

theorem replaceFirst_hit (X W s : Bytes) (hX : X ≠ []) :
    replaceFirst X W (X ++ s) = W ++ s := by
  cases X with
  | nil => exact absurd rfl hX
  | cons c X =>
    have h1 : hasPrefix (c :: X) (c :: (X ++ s)) = true := by
      rw [hasPrefix_iff]
      exact List.prefix_append (c :: X) s
    rw [List.cons_append, replaceFirst_cons, if_pos h1]
    simp

theorem NoOcc_nil (X s : Bytes) : NoOcc X [] s := by
  intro a1 a2 e ne
  have := List.append_eq_nil.mp e.symm
  exact absurd this.2 ne

theorem NoOcc_append (X a b s : Bytes) (h1 : NoOcc X a (b ++ s)) (h2 : NoOcc X b s) :
    NoOcc X (a ++ b) s := by
  intro c1 c2 e ne
  rcases List.append_eq_append_iff.mp e with ⟨a', _, hb⟩ | ⟨c', ha, hc⟩
  · exact h2 a' c2 hb ne
  · by_cases hc' : c' = []
    · subst hc'
      simp only [List.nil_append] at hc
      subst hc
      exact h2 [] c2 rfl ne
    · rw [hc, List.append_assoc]
      exact h1 c1 c' ha hc'

/-- A suffix of a quoted text starts at a byte of the text, or after the
backslash of an escaped byte. -/
theorem QuoteMeta_suffix : ∀ (g a1 a2 : Bytes), QuoteMeta g = a1 ++ a2 → a2 ≠ [] →
    (∃ g1 g2, g = g1 ++ g2 ∧ g2 ≠ [] ∧ a2 = QuoteMeta g2) ∨
    (∃ g1 c g2, g = g1 ++ c :: g2 ∧ special c = true ∧ a2 = c :: QuoteMeta g2)
  | [], a1, a2, e, ne => by
    simp only [QuoteMeta] at e
    exact absurd (List.append_eq_nil.mp e.symm).2 ne
  | c :: g, [], a2, e, ne => by
    refine Or.inl ⟨[], c :: g, rfl, by simp, ?_⟩
    simpa using e.symm
  | c :: g, x :: a1, a2, e, ne => by
    have lift : ((∃ g1 g2, g = g1 ++ g2 ∧ g2 ≠ [] ∧ a2 = QuoteMeta g2) ∨
        (∃ g1 d g2, g = g1 ++ d :: g2 ∧ special d = true ∧ a2 = d :: QuoteMeta g2)) →
        ((∃ g1 g2, c :: g = g1 ++ g2 ∧ g2 ≠ [] ∧ a2 = QuoteMeta g2) ∨
        (∃ g1 d g2, c :: g = g1 ++ d :: g2 ∧ special d = true ∧
          a2 = d :: QuoteMeta g2)) := by
      rintro (⟨g1, g2, h1, h2, h3⟩ | ⟨g1, d, g2, h1, h2, h3⟩)
      · exact Or.inl ⟨c :: g1, g2, by simp [h1], h2, h3⟩
      · exact Or.inr ⟨c :: g1, d, g2, by simp [h1], h2, h3⟩
    by_cases hc : special c = true
    · simp only [QuoteMeta, hc, if_true, List.cons_append, List.cons.injEq] at e
      cases a1 with
      | nil =>
        refine Or.inr ⟨[], c, g, rfl, hc, ?_⟩
        simpa using e.2.symm
      | cons y a1 =>
        simp only [List.cons_append, List.cons.injEq] at e
        exact lift (QuoteMeta_suffix g a1 a2 e.2.2 ne)
    · simp only [QuoteMeta, hc, if_false, List.cons_append, List.cons.injEq,
        Bool.false_eq_true] at e
      exact lift (QuoteMeta_suffix g a1 a2 e.2 ne)

/-- A quoted text that is a prefix of a quoted text followed by `T`: the
texts are prefixes of each other, and what is left over begins `T`. -/
theorem QuoteMeta_prefix : ∀ (f g T : Bytes), QuoteMeta f <+: QuoteMeta g ++ T →
    f <+: g ∨ ∃ f1, f = g ++ f1 ∧ f1 ≠ [] ∧ QuoteMeta f1 <+: T
  | [], g, _, _ => Or.inl (List.nil_prefix)
  | a :: f, [], T, h => Or.inr ⟨a :: f, rfl, by simp, by simpa [QuoteMeta] using h⟩
  | a :: f, b :: g, T, h => by
    have lift : a = b → QuoteMeta f <+: QuoteMeta g ++ T →
        (a :: f <+: b :: g ∨
          ∃ f1, a :: f = b :: g ++ f1 ∧ f1 ≠ [] ∧ QuoteMeta f1 <+: T) := by
      intro hab h1
      subst hab
      rcases QuoteMeta_prefix f g T h1 with h2 | ⟨f1, h2, h3, h4⟩
      · exact Or.inl ((List.prefix_cons_inj a).mpr h2)
      · exact Or.inr ⟨f1, by simp [h2], h3, h4⟩
    have s92 : special 92 = true := by decide
    by_cases ha : special a = true <;> by_cases hb : special b = true
    · simp only [QuoteMeta, ha, hb, if_true, List.cons_append, List.cons_prefix_cons,
        true_and] at h
      exact lift h.1 h.2
    · simp only [QuoteMeta, ha, hb, if_true, if_false, List.cons_append,
        List.cons_prefix_cons, Bool.false_eq_true] at h
      rw [← h.1] at hb
      exact absurd s92 hb
    · simp only [QuoteMeta, ha, hb, if_true, if_false, List.cons_append,
        List.cons_prefix_cons, Bool.false_eq_true] at h
      rw [h.1] at ha
      exact absurd s92 ha
    · simp only [QuoteMeta, ha, hb, if_false, List.cons_append, List.cons_prefix_cons,
        Bool.false_eq_true] at h
      exact lift h.1 h.2

/-- A quoted text never begins with a special byte other than backslash. -/
theorem QuoteMeta_not_prefix_special (f T : Bytes) (c : Nat) (hf : f ≠ [])
    (hc : special c = true) (hc92 : c ≠ 92) : ¬ QuoteMeta f <+: c :: T := by
  cases f with
  | nil => exact absurd rfl hf
  | cons a f =>
    intro h
    by_cases ha : special a = true
    · simp only [QuoteMeta, ha, if_true, List.cons_prefix_cons] at h
      exact hc92 h.1.symm
    · simp only [QuoteMeta, ha, if_false, List.cons_prefix_cons, Bool.false_eq_true] at h
      rw [h.1] at ha
      exact ha hc

/-- A quoted text followed by `T` begins with `{` only if `T` does and the
text is empty. -/
theorem brace_not_prefix_QuoteMeta (g T X : Bytes) (hT : ¬ 123 :: X <+: T) :
    ¬ 123 :: X <+: QuoteMeta g ++ T := by
  cases g with
  | nil => simpa [QuoteMeta] using hT
  | cons a g =>
    intro h
    by_cases ha : special a = true
    · simp only [QuoteMeta, ha, if_true, List.cons_append, List.cons_prefix_cons] at h
      omega
    · simp only [QuoteMeta, ha, if_false, List.cons_append, List.cons_prefix_cons,
        Bool.false_eq_true] at h
      rw [← h.1] at ha
      exact ha (by decide)

theorem QuoteMeta_placeholder (name : Bytes) :
    QuoteMeta (123 :: name ++ [125]) = 92 :: 123 :: (QuoteMeta name ++ [92, 125]) := by
  have h1 : special 123 = true := by decide
  have h2 : special 125 = true := by decide
  simp [QuoteMeta, QuoteMeta_append, h1, h2]

/-- No quoted placeholder starts inside a wildcard. -/
theorem NoOcc_wildcard (name T : Bytes) :
    NoOcc (QuoteMeta (123 :: name ++ [125])) wildcard T := by
  intro a1 a2 e ne h
  rw [QuoteMeta_placeholder] at h
  cases a2 with
  | nil => exact ne rfl
  | cons c a2 =>
    simp only [List.cons_append, List.cons_prefix_cons] at h
    have hc : c ∈ wildcard := by
      rw [e]
      simp
    rw [← h.1] at hc
    revert hc
    decide

theorem findOne_cons (b : Nat) (s : Bytes) :
    findOne (b :: s) =
      match (if b = 123 then closeBrace s else none) with
      | some (name, rest) => some ([], name, rest)
      | none =>
        match findOne s with
        | some (gap, name, rest) => some (b :: gap, name, rest)
        | none => none := rfl

/-- The finder returns the leftmost match: a placeholder after `pre` bounds
the length of the text before the match. -/
theorem findOne_gap_le : ∀ (pre name post gap nm rest : Bytes), 10 ∉ name →
    findOne (pre ++ 123 :: name ++ 125 :: post) = some (gap, nm, rest) →
    gap.length ≤ pre.length
  | [], name, post, gap, nm, rest, h10, h => by
    obtain ⟨n, r, hc⟩ := closeBrace_of_append name post h10
    rw [List.nil_append, List.cons_append, findOne_cons, if_pos rfl, hc] at h
    simp only [Option.some.injEq, Prod.mk.injEq] at h
    rw [← h.1]
  | b :: pre, name, post, gap, nm, rest, h10, h => by
    simp only [List.cons_append] at h
    unfold findOne at h
    split at h
    · simp only [Option.some.injEq, Prod.mk.injEq] at h
      rw [← h.1]
      simp
    · cases hf : findOne (pre ++ 123 :: name ++ 125 :: post) with
      | none =>
        exact absurd hf (findOne_of_placeholder pre name post h10)
      | some q =>
        obtain ⟨g, n, r⟩ := q
        simp only [hf, Option.some.injEq, Prod.mk.injEq] at h
        have := findOne_gap_le pre name post g n r h10 hf
        rw [← h.1]
        simp only [List.length_cons]
        omega

/-- The text before the match of the finder contains no placeholder. -/
theorem findOne_gap_clean (path gap name rest : Bytes)
    (h : findOne path = some (gap, name, rest)) : ¬ HasPlaceholder gap := by
  rintro ⟨pre, n, post, e, h10⟩
  obtain ⟨hp, _, _⟩ := findOne_spec path gap name rest h
  have hp1 : path = pre ++ 123 :: n ++ 125 :: (post ++ 123 :: name ++ 125 :: rest) := by
    rw [hp, e]
    simp
  rw [hp1] at h
  have := findOne_gap_le pre n _ gap name rest h10 h
  rw [e] at this
  simp at this

/-- No quoted placeholder starts inside the quoted text of a piece without
placeholder that a wildcard follows. -/
theorem NoOcc_quoted_piece (name g T : Bytes) (h10 : 10 ∉ name) (hg : ¬ HasPlaceholder g) :
    NoOcc (QuoteMeta (123 :: name ++ [125])) (QuoteMeta g) (wildcard ++ T) := by
  intro a1 a2 e ne h
  rcases QuoteMeta_suffix g a1 a2 e ne with ⟨g1, g2, e1, _, e2⟩ | ⟨g1, c, g2, e1, _, e2⟩
  · rw [e2] at h
    rcases QuoteMeta_prefix _ g2 _ h with h1 | ⟨f1, _, h2, h3⟩
    · obtain ⟨t, ht⟩ := h1
      apply hg
      refine ⟨g1, name, t, ?_, h10⟩
      rw [e1, ← ht]
      simp
    · exact QuoteMeta_not_prefix_special f1 _ 40 h2 (by decide) (by decide) h3
  · rw [e2, QuoteMeta_placeholder] at h
    simp only [List.cons_append, List.cons_prefix_cons] at h
    refine brace_not_prefix_QuoteMeta g2 (wildcard ++ T) _ ?_ h.2
    simp [wildcard]

/-- No quoted match of the finder starts inside the quoted text before the
match. -/
theorem NoOcc_quoted_gap (path gap name rest : Bytes)
    (hf : findOne path = some (gap, name, rest)) :
    NoOcc (QuoteMeta (123 :: name ++ [125])) (QuoteMeta gap)
      (QuoteMeta (123 :: name ++ [125]) ++ QuoteMeta rest) := by
  obtain ⟨hp, h10, _⟩ := findOne_spec path gap name rest hf
  intro a1 a2 e ne h
  rcases QuoteMeta_suffix gap a1 a2 e ne with ⟨g1, g2, e1, ne2, e2⟩ | ⟨g1, c, g2, e1, _, e2⟩
  · rw [e2, ← QuoteMeta_append, ← QuoteMeta_append] at h
    have h0 : QuoteMeta (123 :: name ++ [125]) <+:
        QuoteMeta (g2 ++ ((123 :: name ++ [125]) ++ rest)) ++ [] := by simpa using h
    rcases QuoteMeta_prefix _ _ _ h0 with h1 | ⟨f1, _, h2, h3⟩
    · obtain ⟨t, ht⟩ := h1
      have hp1 : path = g1 ++ 123 :: name ++ 125 :: t := by
        rw [hp, e1]
        simp only [List.append_assoc, List.cons_append, List.nil_append] at ht ⊢
        rw [← ht]
      rw [hp1] at hf
      have := findOne_gap_le g1 name t gap name rest h10 hf
      rw [e1] at this
      simp only [List.length_append] at this
      have : g2.length = 0 := by omega
      exact ne2 (List.length_eq_zero.mp this)
    · exact h2 (QuoteMeta_eq_nil f1 (List.prefix_nil.mp h3))
  · rw [e2, QuoteMeta_placeholder] at h
    simp only [List.cons_append, List.cons_prefix_cons] at h
    refine brace_not_prefix_QuoteMeta g2 _ _ ?_ h.2
    simp

theorem render_append (gs : List Bytes) (g : Bytes) :
    render (gs ++ [g]) = render gs ++ (QuoteMeta g ++ wildcard) := by
  induction gs with
  | nil => simp [render]
  | cons a gs ih => simp [render, ih]

/-- No quoted placeholder starts inside the already rewritten part. -/
theorem NoOcc_render (name : Bytes) (h10 : 10 ∉ name) : ∀ (gs : List Bytes) (T : Bytes),
    (∀ g ∈ gs, ¬ HasPlaceholder g) →
    NoOcc (QuoteMeta (123 :: name ++ [125])) (render gs) T
  | [], T, _ => NoOcc_nil _ T
  | g :: gs, T, h => by
    have ih := NoOcc_render name h10 gs T (fun g1 hg1 => h g1 (List.mem_cons_of_mem g hg1))
    have hw := NoOcc_append _ wildcard (render gs) T (NoOcc_wildcard name _) ih
    have hq := NoOcc_quoted_piece name g (render gs ++ T) h10 (h g (List.mem_cons_self g gs))
    have := NoOcc_append _ (QuoteMeta g) (wildcard ++ render gs) T
      (by simpa [List.append_assoc] using hq) hw
    simpa [render, List.append_assoc] using this

/-- The loop of replacements, started after an already rewritten part, does
what the one-pass rewriting of the specification does. -/
theorem replaceFinds_render : ∀ (n : Nat) (path : Bytes) (gs : List Bytes),
    (∀ g ∈ gs, ¬ HasPlaceholder g) →
    replaceFinds (render gs ++ QuoteMeta path) (FindAllStringSubmatch n path) =
      render gs ++ renderSpec n path
  | 0, path, gs, _ => rfl
  | n + 1, path, gs, hgs => by
    cases hf : findOne path with
    | none => simp [FindAllStringSubmatch, renderSpec, hf, replaceFinds]
    | some q =>
      obtain ⟨gap, name, rest⟩ := q
      obtain ⟨hp, h10, _⟩ := findOne_spec path gap name rest hf
      have hclean : ∀ g ∈ gs ++ [gap], ¬ HasPlaceholder g := by
        intro g hg
        rcases List.mem_append.mp hg with h | h
        · exact hgs g h
        · rw [List.mem_singleton.mp h]
          exact findOne_gap_clean path gap name rest hf
      have hq : QuoteMeta path =
          QuoteMeta gap ++ (QuoteMeta (123 :: name ++ [125]) ++ QuoteMeta rest) := by
        rw [← QuoteMeta_append, ← QuoteMeta_append, hp]
        simp
      have hno : NoOcc (QuoteMeta (123 :: name ++ [125])) (render gs ++ QuoteMeta gap)
          (QuoteMeta (123 :: name ++ [125]) ++ QuoteMeta rest) :=
        NoOcc_append _ _ _ _ (NoOcc_render name h10 gs _ hgs)
          (NoOcc_quoted_gap path gap name rest hf)
      have hne : QuoteMeta (123 :: name ++ [125]) ≠ [] := by
        rw [QuoteMeta_placeholder]
        simp
      have hstep : replaceFirst (QuoteMeta (123 :: name ++ [125])) wildcard
          (render gs ++ QuoteMeta path) = render (gs ++ [gap]) ++ QuoteMeta rest := by
        rw [hq, ← List.append_assoc, replaceFirst_skip _ _ _ _ hno,
          replaceFirst_hit _ _ _ hne, render_append]
        simp [List.append_assoc]
      simp only [FindAllStringSubmatch, hf, replaceFinds, renderSpec]
      rw [hstep, replaceFinds_render n rest (gs ++ [gap]) hclean, render_append]
      simp [List.append_assoc]

/-- The quoted path with the matches replaced is the one-pass rewriting with
the first 20 placeholders replaced. -/
theorem keyNameOf_eq_renderSpec (path : Bytes) : keyNameOf path = renderSpec 20 path := by
  have := replaceFinds_render 20 path [] (by simp)
  simpa [render, keyNameOf] using this

/-! ## The compiled pattern -/

theorem special_lt (c : Nat) (h : special c = true) : c < 128 := by
  unfold special at h
  simp only [Bool.or_eq_true, decide_eq_true_eq] at h
  omega

theorem special_punct (c : Nat) (h : special c = true) : c < 128 ∧ ¬ isalnum c = true := by
  have h1 := special_lt c h
  have h2 : ∀ c < 128, special c = true → ¬ isalnum c = true := by decide
  exact ⟨h1, h2 c h1 h⟩

theorem not_special_plain (c : Nat) (h : ¬ special c = true) :
    c ≠ 92 ∧ c ≠ 40 ∧ c ≠ 94 ∧ c ≠ 36 := by
  refine ⟨?_, ?_, ?_, ?_⟩ <;> (intro e; subst e; exact h (by decide))

/-- The parser reads a quoted text as the literal bytes of the text. -/
theorem parseFrom_QuoteMeta : ∀ (s t : Bytes),
    parseFrom .start (QuoteMeta s ++ t) =
      (parseFrom .start t).map (fun r => s.map Tok.lit ++ r)
  | [], t => by simp [QuoteMeta]
  | c :: s, t => by
    by_cases hc : special c = true
    · have hp := special_punct c hc
      simp only [QuoteMeta, hc, if_true, List.cons_append, parseFrom, hp, not_false_eq_true,
        and_self]
      rw [parseFrom_QuoteMeta s t]
      cases parseFrom .start t <;> simp
    · obtain ⟨h1, h2, h3, h4⟩ := not_special_plain c hc
      simp only [QuoteMeta, hc, if_false, List.cons_append, Bool.false_eq_true, parseFrom, h1,
        h2, h3, h4]
      rw [parseFrom_QuoteMeta s t]
      cases parseFrom .start t <;> simp

/-- The parser reads the wildcard as one capture group. -/
theorem parseFrom_wildcard (t : Bytes) :
    parseFrom .start (wildcard ++ t) = (parseFrom .start t).map (fun r => Tok.group :: r) := by
  simp [wildcard, parseFrom]

theorem parseFrom_renderSpec : ∀ (n : Nat) (path t : Bytes),
    parseFrom .start (renderSpec n path ++ t) =
      (parseFrom .start t).map (fun r => specToks n path ++ r)
  | 0, path, t => by simp [renderSpec, specToks, parseFrom_QuoteMeta]
  | n + 1, path, t => by
    cases hf : findOne path with
    | none => simp [renderSpec, specToks, hf, parseFrom_QuoteMeta]
    | some q =>
      obtain ⟨gap, name, rest⟩ := q
      simp only [renderSpec, specToks, hf, List.append_assoc]
      rw [parseFrom_QuoteMeta, parseFrom_wildcard, parseFrom_renderSpec n rest t]
      cases parseFrom .start t <;> simp

/-- The anchored pattern of a path always parses, to the tokens of the
specification between the two anchors. -/
theorem parseToks_pattern (path : Bytes) :
    parseToks ([94] ++ keyNameOf path ++ [36]) =
      some (Tok.bol :: specToks 20 path ++ [Tok.eol]) := by
  have h36 : parseFrom .start [36] = some [Tok.eol] := by decide
  have h94 : ∀ t : Bytes, parseFrom .start (94 :: t) =
      (parseFrom .start t).map (fun r => Tok.bol :: r) := by
    intro t
    simp [parseFrom]
  rw [keyNameOf_eq_renderSpec]
  unfold parseToks
  rw [List.singleton_append, List.cons_append, h94, parseFrom_renderSpec, h36]
  simp

theorem count_group_lit (s : Bytes) : (s.map Tok.lit).count Tok.group = 0 := by
  induction s with
  | nil => rfl
  | cons a s ih => simp [List.count_cons, ih]

theorem specToks_count : ∀ (n : Nat) (path : Bytes),
    (specToks n path).count Tok.group = (FindAllStringSubmatch n path).length
  | 0, path => by simp [specToks, FindAllStringSubmatch, count_group_lit]
  | n + 1, path => by
    cases hf : findOne path with
    | none => simp [specToks, FindAllStringSubmatch, hf, count_group_lit]
    | some q =>
      obtain ⟨gap, name, rest⟩ := q
      simp [specToks, FindAllStringSubmatch, hf, count_group_lit, List.count_cons,
        specToks_count n rest]

theorem FindAllStringSubmatch_take : ∀ (n m : Nat) (path : Bytes), n ≤ m →
    FindAllStringSubmatch n path = (FindAllStringSubmatch m path).take n
  | 0, _, _, _ => by simp [FindAllStringSubmatch]
  | n + 1, 0, _, h => by omega
  | n + 1, m + 1, path, h => by
    cases hf : findOne path with
    | none => simp [FindAllStringSubmatch, hf]
    | some q =>
      obtain ⟨gap, name, rest⟩ := q
      simp only [FindAllStringSubmatch, hf, List.take_succ_cons, List.cons.injEq, true_and]
      exact FindAllStringSubmatch_take n m rest (by omega)

theorem FindAllStringSubmatch_length_le : ∀ (n : Nat) (path : Bytes),
    (FindAllStringSubmatch n path).length ≤ path.length
  | 0, _ => by simp [FindAllStringSubmatch]
  | n + 1, path => by
    cases hf : findOne path with
    | none => simp [FindAllStringSubmatch, hf]
    | some q =>
      obtain ⟨gap, name, rest⟩ := q
      obtain ⟨hp, _, _⟩ := findOne_spec path gap name rest hf
      have ih := FindAllStringSubmatch_length_le n rest
      simp only [FindAllStringSubmatch, hf, List.length_cons]
      rw [hp]
      simp only [List.length_append, List.length_cons]
      omega

/-- Beyond the length of the path the bound on the number of matches makes
no difference: `allFinds` is the list of all matches. -/
theorem FindAllStringSubmatch_saturate (n : Nat) (path : Bytes) (h : path.length ≤ n) :
    FindAllStringSubmatch n path = allFinds path := by
  have h1 := FindAllStringSubmatch_take path.length n path h
  have h2 := FindAllStringSubmatch_length_le n path
  unfold allFinds
  rw [h1, List.take_of_length_le h2]

theorem FindAllStringSubmatch_eq_take (n : Nat) (path : Bytes) :
    FindAllStringSubmatch n path = (allFinds path).take n := by
  by_cases h : n ≤ path.length
  · exact FindAllStringSubmatch_take n path.length path h
  · have h1 := FindAllStringSubmatch_saturate n path (by omega)
    have h2 := FindAllStringSubmatch_length_le n path
    rw [h1] at h2 ⊢
    rw [List.take_of_length_le]
    unfold allFinds at h2 ⊢
    have := FindAllStringSubmatch_length_le path.length path
    omega

/-- C2 as stated fails on a path with 21 placeholders: the finder is asked
for 20 matches at most, so `pathArgs` has 20 names while the path has 21
placeholders, and the 21st stays in the pattern as the escaped text `\{\}`. -/
theorem pathArgs_capped_at_20 :
    (allFinds manyPlaceholders).length = 21 ∧
    (pathArgsOf manyPlaceholders).length = 20 ∧
    keyNameOf manyPlaceholders =
      (List.replicate 20 wildcard).flatten ++ [92, 123, 92, 125] := by
  decide

/-- C2, amended: for every path template, `pathArgs` is the sequence of the
names of the first 20 placeholders, in order; `keyName` is the template with
each of these placeholders replaced by `(.*?)` and every other byte escaped,
later placeholders included; the pattern `^keyName$` compiles, when it is
valid UTF-8, to the anchored token list of that rewriting, whose number of
capture groups is `len(pathArgs)`, the smaller of 20 and the number of
placeholders. The template `/a/{x}/b/{y}` gives the names `x`, `y` and the
pattern `^/a/(.*?)/b/(.*?)$`, which captures `1` and `2` on `/a/1/b/2`. -/
theorem path_pattern_compiled :
    (∀ path : Bytes,
      pathArgsOf path = ((allFinds path).map (fun found => found.2)).take 20 ∧
      (pathArgsOf path).length = min 20 (allFinds path).length ∧
      keyNameOf path = renderSpec 20 path ∧
      regexpCompile ([94] ++ keyNameOf path ++ [36]) =
        (if validUTF8 ([94] ++ keyNameOf path ++ [36]) then
          some ⟨Tok.bol :: specToks 20 path ++ [Tok.eol]⟩
         else none) ∧
      (specToks 20 path).count Tok.group = (pathArgsOf path).length) ∧
    pathArgsOf (ascii "/a/\x7bx\x7d/b/\x7by\x7d") = [ascii "x", ascii "y"] ∧
    [94] ++ keyNameOf (ascii "/a/\x7bx\x7d/b/\x7by\x7d") ++ [36] =
      ascii "^/a/(.*?)/b/(.*?)$" ∧
    (regexpCompile ([94] ++ keyNameOf (ascii "/a/\x7bx\x7d/b/\x7by\x7d") ++ [36])).bind
      (fun re => re.FindStringSubmatch (ascii "/a/1/b/2")) = some [ascii "1", ascii "2"] := by
  refine ⟨?_, by decide, by decide, by decide⟩
  intro path
  have h1 : pathArgsOf path = ((allFinds path).map (fun found => found.2)).take 20 := by
    unfold pathArgsOf
    rw [FindAllStringSubmatch_eq_take, List.map_take]
  refine ⟨h1, ?_, keyNameOf_eq_renderSpec path, ?_, ?_⟩
  · rw [h1]
    simp
  · unfold regexpCompile
    rw [parseToks_pattern]
    rfl
  · rw [specToks_count]
    simp [pathArgsOf]

/-! ## Registration -/

theorem planStep_fixed (i : Nat) (t : GoType) (s : webServiceType) :
    (planStep i t s).authLevel = s.authLevel ∧ (planStep i t s).priority = s.priority ∧
    (planStep i t s).method = s.method ∧ (planStep i t s).path = s.path ∧
    (planStep i t s).pathMatcher = s.pathMatcher ∧ (planStep i t s).pathArgs = s.pathArgs ∧
    (planStep i t s).parmsNum = s.parmsNum ∧ (planStep i t s).funcType = s.funcType := by
  unfold planStep
  repeat' split
  all_goals simp

theorem planLoop_fixed : ∀ (ts : List GoType) (i : Nat) (s : webServiceType),
    (planLoop i ts s).authLevel = s.authLevel ∧ (planLoop i ts s).priority = s.priority ∧
    (planLoop i ts s).method = s.method ∧ (planLoop i ts s).path = s.path ∧
    (planLoop i ts s).pathMatcher = s.pathMatcher ∧ (planLoop i ts s).pathArgs = s.pathArgs ∧
    (planLoop i ts s).parmsNum = s.parmsNum ∧ (planLoop i ts s).funcType = s.funcType
  | [], i, s => by simp [planLoop]
  | t :: ts, i, s => by
    have h1 := planLoop_fixed ts (i + 1) (planStep i t s)
    have h2 := planStep_fixed i t s
    simp only [planLoop]
    obtain ⟨a1, a2, a3, a4, a5, a6, a7, a8⟩ := h1
    obtain ⟨b1, b2, b3, b4, b5, b6, b7, b8⟩ := h2
    exact ⟨a1.trans b1, a2.trans b2, a3.trans b3, a4.trans b4, a5.trans b5, a6.trans b6,
      a7.trans b7, a8.trans b8⟩

/-- A value of kind `Func` gets a descriptor and no error. -/
theorem makeCachedService_func (f : Service) (hf : f.typ.Kind = Kind.Func) :
    makeCachedService (some f) = some (Except.ok (planLoop 0 f.ins (newService f))) := by
  simp [makeCachedService, hf]

theorem planLoop_newService (f : Service) :
    (planLoop 0 f.ins (newService f)).pathMatcher = none ∧
    (planLoop 0 f.ins (newService f)).pathArgs = [] ∧
    (planLoop 0 f.ins (newService f)).parmsNum = f.ins.length ∧
    (planLoop 0 f.ins (newService f)).funcType = f.ins := by
  obtain ⟨_, _, _, _, a5, a6, a7, a8⟩ := planLoop_fixed f.ins 0 (newService f)
  exact ⟨a5, a6, a7, a8⟩

/-- A non-nil value that is no function gets the error `bad Service`. -/
theorem makeCachedService_nonFunc (f : Service) (hf : f.typ.Kind ≠ Kind.Func) :
    makeCachedService (some f) = some (Except.error "bad Service") := by
  simp [makeCachedService, hf]

/-- Registration of a non-nil value that is no function returns with both
route structures as they were; the error is logged. -/
theorem RestfulWithPriority_nonFunc (reg : Registry) (authLevel priority : Int)
    (method path : Bytes) (f : Service) (hf : f.typ.Kind ≠ Kind.Func) :
    ∃ reg1, RestfulWithPriority reg authLevel priority method path (some f) = some reg1 ∧
      reg1.webServices = reg.webServices ∧ reg1.regexWebServices = reg.regexWebServices := by
  simp [RestfulWithPriority, makeCachedService_nonFunc f hf]

theorem RestfulWithPriority_ok_literal (reg : Registry) (authLevel priority : Int)
    (method path : Bytes) (sf : Option Service) (s0 : webServiceType)
    (h0 : makeCachedService sf = some (Except.ok s0)) (hm : s0.pathMatcher = none)
    (ha : s0.pathArgs = []) (hargs : pathArgsOf path = []) :
    RestfulWithPriority reg authLevel priority method path sf =
      some { reg with
        webServices := fun k =>
          if k = method ++ path then
            some { s0 with authLevel := authLevel, priority := priority, method := method,
                           path := path }
          else reg.webServices k } := by
  simp only [RestfulWithPriority, h0, ha, hargs, List.append_nil, List.length_nil,
    lt_self_iff_false, if_false, hm, Option.isNone_none, if_true]

theorem RestfulWithPriority_ok_pattern (reg : Registry) (authLevel priority : Int)
    (method path : Bytes) (sf : Option Service) (s0 : webServiceType) (re : Regexp)
    (h0 : makeCachedService sf = some (Except.ok s0))
    (ha : s0.pathArgs = []) (hargs : pathArgsOf path ≠ [])
    (hc : regexpCompile ([94] ++ keyNameOf path ++ [36]) = some re) :
    RestfulWithPriority reg authLevel priority method path sf =
      some { reg with
        regexWebServices := reg.regexWebServices ++
          [{ s0 with authLevel := authLevel, priority := priority, method := method,
                     path := path, pathArgs := pathArgsOf path, pathMatcher := some re }] } := by
  have hlen : 0 < (pathArgsOf path).length := List.length_pos.mpr hargs
  simp only [RestfulWithPriority, h0, ha, List.nil_append, hlen, if_true, hc,
    Option.isNone_some, Bool.false_eq_true, if_false]

theorem RestfulWithPriority_ok_failure (reg : Registry) (authLevel priority : Int)
    (method path : Bytes) (sf : Option Service) (s0 : webServiceType)
    (h0 : makeCachedService sf = some (Except.ok s0))
    (ha : s0.pathArgs = []) (hargs : pathArgsOf path ≠ [])
    (hc : regexpCompile ([94] ++ keyNameOf path ++ [36]) = none) :
    RestfulWithPriority reg authLevel priority method path sf =
      some { webServices := fun k =>
               if k = method ++ path then
                 some { s0 with authLevel := authLevel, priority := priority, method := method,
                                path := path, pathArgs := pathArgsOf path, pathMatcher := none }
               else reg.webServices k
             regexWebServices := reg.regexWebServices ++
               [{ s0 with authLevel := authLevel, priority := priority, method := method,
                          path := path, pathArgs := pathArgsOf path, pathMatcher := none }]
             errorLog := reg.errorLog ++
               [LogEntry.compileError authLevel priority path method] } := by
  have hlen : 0 < (pathArgsOf path).length := List.length_pos.mpr hargs
  simp only [RestfulWithPriority, h0, ha, List.nil_append, hlen, if_true, hc,
    Option.isNone_none]

/-- C1: for a callable handler and a path without placeholder, registration
binds the key `method+path` of `webServices` to the new descriptor, which
carries the given authLevel, priority, method and path, whatever was bound to
that key before; every other key, the pattern list and the error log are
unchanged. -/
theorem RestfulWithPriority_literal (reg : Registry) (authLevel priority : Int)
    (method path : Bytes) (f : Service) (hf : f.typ.Kind = Kind.Func)
    (hp : ¬ HasPlaceholder path) :
    ∃ s0 reg1, makeCachedService (some f) = some (Except.ok s0) ∧
      RestfulWithPriority reg authLevel priority method path (some f) = some reg1 ∧
      reg1.webServices (method ++ path) =
        some { s0 with authLevel := authLevel, priority := priority, method := method,
                       path := path } ∧
      (∀ k, k ≠ method ++ path → reg1.webServices k = reg.webServices k) ∧
      reg1.regexWebServices = reg.regexWebServices ∧ reg1.errorLog = reg.errorLog := by
  have h0 := makeCachedService_func f hf
  obtain ⟨hm, ha, _, _⟩ := planLoop_newService f
  have hargs := (pathArgsOf_eq_nil_iff path).mpr hp
  refine ⟨_, _, h0,
    RestfulWithPriority_ok_literal reg authLevel priority method path _ _ h0 hm ha hargs,
    ?_, ?_, rfl, rfl⟩
  · simp
  · intro k hk
    simp [hk]

theorem RestfulWithPriority_literal_witness :
    ∃ s0 reg1, makeCachedService (some greetFunc) = some (Except.ok s0) ∧
      RestfulWithPriority emptyRegistry 1 0 (ascii "GET") (ascii "/greet") (some greetFunc)
        = some reg1 ∧
      reg1.webServices (ascii "GET" ++ ascii "/greet") =
        some { s0 with authLevel := 1, priority := 0, method := ascii "GET",
                       path := ascii "/greet" } ∧
      (∀ k, k ≠ ascii "GET" ++ ascii "/greet" →
        reg1.webServices k = emptyRegistry.webServices k) ∧
      reg1.regexWebServices = emptyRegistry.regexWebServices ∧
      reg1.errorLog = emptyRegistry.errorLog :=
  RestfulWithPriority_literal emptyRegistry 1 0 (ascii "GET") (ascii "/greet") greetFunc
    (by decide) ((findOne_eq_none_iff _).mp (by decide))

/-- C10: for a callable handler and a path with a placeholder whose pattern
compiles, registration appends the new descriptor, with the priority and the
compiled matcher stored, after the pattern routes registered before, which
keep their positions; `webServices` and the error log are unchanged. -/
theorem RestfulWithPriority_pattern (reg : Registry) (authLevel priority : Int)
    (method path : Bytes) (f : Service) (re : Regexp) (hf : f.typ.Kind = Kind.Func)
    (hp : HasPlaceholder path) (hc : regexpCompile ([94] ++ keyNameOf path ++ [36]) = some re) :
    ∃ s0 reg1, makeCachedService (some f) = some (Except.ok s0) ∧
      RestfulWithPriority reg authLevel priority method path (some f) = some reg1 ∧
      reg1.regexWebServices = reg.regexWebServices ++
        [{ s0 with authLevel := authLevel, priority := priority, method := method, path := path,
                   pathArgs := pathArgsOf path, pathMatcher := some re }] ∧
      reg1.webServices = reg.webServices ∧ reg1.errorLog = reg.errorLog := by
  have h0 := makeCachedService_func f hf
  obtain ⟨_, ha, _, _⟩ := planLoop_newService f
  have hargs : pathArgsOf path ≠ [] := fun h => (pathArgsOf_eq_nil_iff path).mp h hp
  exact ⟨_, _, h0,
    RestfulWithPriority_ok_pattern reg authLevel priority method path _ _ re h0 ha hargs hc,
    rfl, rfl, rfl⟩

theorem RestfulWithPriority_pattern_witness :
    ∃ s0 reg1, makeCachedService (some greetFunc) = some (Except.ok s0) ∧
      RestfulWithPriority emptyRegistry 1 5 (ascii "GET") (ascii "/greet/\x7bname\x7d")
        (some greetFunc) = some reg1 ∧
      reg1.regexWebServices = emptyRegistry.regexWebServices ++
        [{ s0 with authLevel := 1, priority := 5, method := ascii "GET",
                   path := ascii "/greet/\x7bname\x7d",
                   pathArgs := pathArgsOf (ascii "/greet/\x7bname\x7d"),
                   pathMatcher := some ⟨[Tok.bol, Tok.lit 47, Tok.lit 103, Tok.lit 114,
                     Tok.lit 101, Tok.lit 101, Tok.lit 116, Tok.lit 47, Tok.group, Tok.eol]⟩ }] ∧
      reg1.webServices = emptyRegistry.webServices ∧ reg1.errorLog = emptyRegistry.errorLog :=
  RestfulWithPriority_pattern emptyRegistry 1 5 (ascii "GET") (ascii "/greet/\x7bname\x7d")
    greetFunc _ (by decide) ⟨ascii "/greet/", ascii "name", [], by decide, by decide⟩
    (by decide)

/-- C3, at the path `/{a}` followed by the byte 0xFF, whose pattern is not
valid UTF-8 and does not compile: the route is not rejected; registration
appends the descriptor, without matcher, to `regexWebServices` and also binds
it in `webServices`. -/
theorem RestfulWithPriority_compile_failure_registers :
    (RestfulWithPriority emptyRegistry 0 0 (ascii "GET") [47, 123, 97, 125, 255]
        (some greetFunc)).map
      (fun reg1 => (reg1.regexWebServices.map (fun s => s.pathMatcher),
        (reg1.webServices (ascii "GET" ++ [47, 123, 97, 125, 255])).map (fun s => s.pathMatcher),
        reg1.errorLog)) =
    some ([none], some none,
      [LogEntry.compileError 0 0 [47, 123, 97, 125, 255] (ascii "GET")]) ∧
    emptyRegistry.regexWebServices.length = 0 ∧
    (emptyRegistry.webServices (ascii "GET" ++ [47, 123, 97, 125, 255])).isNone = true := by
  decide

/-- Whenever the pattern of a path with a placeholder fails to compile,
registration still appends the descriptor to `regexWebServices` and binds it
in `webServices`. -/
theorem compile_failure_keeps_route (reg : Registry) (authLevel priority : Int)
    (method path : Bytes) (f : Service) (hf : f.typ.Kind = Kind.Func)
    (hp : HasPlaceholder path) (hc : regexpCompile ([94] ++ keyNameOf path ++ [36]) = none) :
    ∃ s reg1, RestfulWithPriority reg authLevel priority method path (some f) = some reg1 ∧
      reg1.regexWebServices = reg.regexWebServices ++ [s] ∧
      reg1.webServices (method ++ path) = some s ∧ s.pathMatcher = none := by
  have h0 := makeCachedService_func f hf
  obtain ⟨_, ha, _, _⟩ := planLoop_newService f
  have hargs : pathArgsOf path ≠ [] := fun h => (pathArgsOf_eq_nil_iff path).mp h hp
  refine ⟨_, _,
    RestfulWithPriority_ok_failure reg authLevel priority method path _ _ h0 ha hargs hc,
    rfl, ?_, rfl⟩
  simp

/-- C4, at the nil handler: `reflect.TypeOf` returns nil and `funcType.Kind()`
panics, so `makeCachedService` returns no error and `RestfulWithPriority` does
not return normally. -/
theorem makeCachedService_nil_panics :
    makeCachedService none = none ∧
    ∀ (reg : Registry) (authLevel priority : Int) (method path : Bytes),
      RestfulWithPriority reg authLevel priority method path none = none := by
  refine ⟨rfl, ?_⟩
  intro reg authLevel priority method path
  rfl

/-! ## The calling plan -/

theorem planStep_body (i : Nat) (t : GoType) (s : webServiceType) :
    (bodyCandidate t = true → s.inType = none →
      (planStep i t s).inType = some t ∧ (planStep i t s).inIndex = i) ∧
    ((bodyCandidate t = false ∨ s.inType ≠ none) →
      (planStep i t s).inType = s.inType ∧ (planStep i t s).inIndex = s.inIndex) := by
  unfold planStep bodyCandidate isMarker
  repeat' split
  all_goals first | (simp_all; done) | (simp_all; tauto)

theorem planLoop_body_kept : ∀ (ts : List GoType) (i : Nat) (s : webServiceType),
    (s.inType ≠ none ∨ ∀ t ∈ ts, bodyCandidate t = false) →
    (planLoop i ts s).inType = s.inType ∧ (planLoop i ts s).inIndex = s.inIndex
  | [], _, _, _ => ⟨rfl, rfl⟩
  | t :: ts, i, s, h => by
    have h1 : bodyCandidate t = false ∨ s.inType ≠ none := by
      rcases h with h | h
      · exact Or.inr h
      · exact Or.inl (h t (List.mem_cons_self t ts))
    obtain ⟨e1, e2⟩ := (planStep_body i t s).2 h1
    have h2 : (planStep i t s).inType ≠ none ∨ ∀ u ∈ ts, bodyCandidate u = false := by
      rcases h with h | h
      · exact Or.inl (by rw [e1]; exact h)
      · exact Or.inr (fun u hu => h u (List.mem_cons_of_mem t hu))
    obtain ⟨e3, e4⟩ := planLoop_body_kept ts (i + 1) (planStep i t s) h2
    simp only [planLoop]
    exact ⟨e3.trans e1, e4.trans e2⟩

theorem planLoop_body_first : ∀ (pre : List GoType) (t : GoType) (post : List GoType)
    (i : Nat) (s : webServiceType), s.inType = none →
    (∀ u ∈ pre, bodyCandidate u = false) → bodyCandidate t = true →
    (planLoop i (pre ++ t :: post) s).inType = some t ∧
    (planLoop i (pre ++ t :: post) s).inIndex = ((i + pre.length : Nat) : Int)
  | [], t, post, i, s, hs, _, ht => by
    obtain ⟨e1, e2⟩ := (planStep_body i t s).1 ht hs
    obtain ⟨e3, e4⟩ := planLoop_body_kept post (i + 1) (planStep i t s)
      (Or.inl (by rw [e1]; simp))
    simp only [List.nil_append, planLoop, List.length_nil, Nat.add_zero]
    exact ⟨e3.trans e1, e4.trans e2⟩
  | u :: pre, t, post, i, s, hs, hpre, ht => by
    obtain ⟨e1, _⟩ := (planStep_body i u s).2 (Or.inl (hpre u (List.mem_cons_self u pre)))
    obtain ⟨e3, e4⟩ := planLoop_body_first pre t post (i + 1) (planStep i u s)
      (e1.trans hs) (fun v hv => hpre v (List.mem_cons_of_mem u hv)) ht
    rw [List.cons_append]
    show (planLoop (i + 1) (pre ++ t :: post) (planStep i u s)).inType = some t ∧
      (planLoop (i + 1) (pre ++ t :: post) (planStep i u s)).inIndex =
        ((i + (u :: pre).length : Nat) : Int)
    refine ⟨e3, e4.trans ?_⟩
    simp only [List.length_cons]
    congr 1
    omega

theorem planStep_markers (ins : List GoType) (i : Nat) (t : GoType) (s : webServiceType)
    (hi : ins[i]? = some t) (h : MarkerSlots ins s) : MarkerSlots ins (planStep i t s) := by
  intro j u hj hidx
  have key : ∀ k : Int, k = (i : Int) → k = (j : Int) → t = u := by
    intro k h1 h2
    have : i = j := by omega
    subst this
    rw [hi] at hj
    exact Option.some.inj hj
  unfold planStep at hidx
  repeat' split at hidx
  all_goals try dsimp only at hidx
  · next hm =>
    rcases hidx with h1 | h1 | h1 | h1 | h1
    · exact h j u hj (Or.inl h1)
    · rw [← key _ rfl h1]; simp [isMarker, hm]
    · exact h j u hj (Or.inr (Or.inr (Or.inl h1)))
    · exact h j u hj (Or.inr (Or.inr (Or.inr (Or.inl h1))))
    · exact h j u hj (Or.inr (Or.inr (Or.inr (Or.inr h1))))
  · next hm =>
    rcases hidx with h1 | h1 | h1 | h1 | h1
    · exact h j u hj (Or.inl h1)
    · exact h j u hj (Or.inr (Or.inl h1))
    · rw [← key _ rfl h1]; simp [isMarker, hm]
    · exact h j u hj (Or.inr (Or.inr (Or.inr (Or.inl h1))))
    · exact h j u hj (Or.inr (Or.inr (Or.inr (Or.inr h1))))
  · next hm =>
    rcases hidx with h1 | h1 | h1 | h1 | h1
    · exact h j u hj (Or.inl h1)
    · exact h j u hj (Or.inr (Or.inl h1))
    · exact h j u hj (Or.inr (Or.inr (Or.inl h1)))
    · rw [← key _ rfl h1]; simp [isMarker, hm]
    · exact h j u hj (Or.inr (Or.inr (Or.inr (Or.inr h1))))
  · next hm =>
    rcases hidx with h1 | h1 | h1 | h1 | h1
    · rw [← key _ rfl h1]; simp [isMarker, hm]
    · exact h j u hj (Or.inr (Or.inl h1))
    · exact h j u hj (Or.inr (Or.inr (Or.inl h1)))
    · exact h j u hj (Or.inr (Or.inr (Or.inr (Or.inl h1))))
    · exact h j u hj (Or.inr (Or.inr (Or.inr (Or.inr h1))))
  · next hm =>
    rcases hidx with h1 | h1 | h1 | h1 | h1
    · exact h j u hj (Or.inl h1)
    · exact h j u hj (Or.inr (Or.inl h1))
    · exact h j u hj (Or.inr (Or.inr (Or.inl h1)))
    · exact h j u hj (Or.inr (Or.inr (Or.inr (Or.inl h1))))
    · rw [← key _ rfl h1]; simp [isMarker, hm]
  all_goals exact h j u hj hidx

theorem planLoop_markers (ins : List GoType) : ∀ (ts done : List GoType) (s : webServiceType),
    ins = done ++ ts → MarkerSlots ins s → MarkerSlots ins (planLoop done.length ts s)
  | [], _, _, _, h => h
  | t :: ts, done, s, e, h => by
    have hi : ins[done.length]? = some t := by
      rw [e, List.getElem?_append_right (le_refl _)]
      simp
    have h1 := planStep_markers ins done.length t s hi h
    have h2 := planLoop_markers ins ts (done ++ [t]) (planStep done.length t s)
      (by rw [e]; simp) h1
    simpa [planLoop] using h2

/-- The plan of `makeCachedService`: Body is bound to the first parameter
that passes the test of line 287 and is no marker; every later such parameter
is recorded in no index; without such a parameter `inIndex` is -1 and
`inType` is nil. -/
theorem makeCachedService_body (f : Service) :
    (∀ (pre : List GoType) (t : GoType) (post : List GoType), f.ins = pre ++ t :: post →
      (∀ u ∈ pre, bodyCandidate u = false) → bodyCandidate t = true →
      (planLoop 0 f.ins (newService f)).inType = some t ∧
      (planLoop 0 f.ins (newService f)).inIndex = (pre.length : Int) ∧
      ∀ (j : Nat) (u : GoType), pre.length < j → f.ins[j]? = some u →
        bodyCandidate u = true → unboundAt (planLoop 0 f.ins (newService f)) j) ∧
    ((∀ u ∈ f.ins, bodyCandidate u = false) →
      (planLoop 0 f.ins (newService f)).inType = none ∧
      (planLoop 0 f.ins (newService f)).inIndex = -1) := by
  have hm : MarkerSlots f.ins (planLoop 0 f.ins (newService f)) := by
    have h0 : MarkerSlots f.ins (newService f) := by
      intro j t _ hidx
      simp only [newService] at hidx
      omega
    exact planLoop_markers f.ins f.ins [] (newService f) rfl h0
  constructor
  · intro pre t post e hpre ht
    obtain ⟨e1, e2⟩ := planLoop_body_first pre t post 0 (newService f) rfl hpre ht
    rw [← e] at e1 e2
    simp only [Nat.zero_add] at e2
    refine ⟨e1, e2, ?_⟩
    intro j u hj hu hc
    have hnm : ¬ isMarker u = true := by
      intro hmk
      simp [bodyCandidate, hmk] at hc
    have hne : ∀ k : Int, k = (j : Int) →
        (k = (planLoop 0 f.ins (newService f)).headersIndex ∨
         k = (planLoop 0 f.ins (newService f)).requestIndex ∨
         k = (planLoop 0 f.ins (newService f)).responseIndex ∨
         k = (planLoop 0 f.ins (newService f)).loggerIndex ∨
         k = (planLoop 0 f.ins (newService f)).callerIndex) → False := by
      intro k hk hor
      apply hnm
      apply hm j u hu
      rcases hor with h | h | h | h | h
      · exact Or.inl (by rw [← h, hk])
      · exact Or.inr (Or.inl (by rw [← h, hk]))
      · exact Or.inr (Or.inr (Or.inl (by rw [← h, hk])))
      · exact Or.inr (Or.inr (Or.inr (Or.inl (by rw [← h, hk]))))
      · exact Or.inr (Or.inr (Or.inr (Or.inr (by rw [← h, hk]))))
    refine ⟨Or.inr ?_, ?_, ?_, ?_, ?_, ?_⟩
    · rw [e2]
      omega
    · exact fun h => hne _ rfl (Or.inl h.symm)
    · exact fun h => hne _ rfl (Or.inr (Or.inl h.symm))
    · exact fun h => hne _ rfl (Or.inr (Or.inr (Or.inl h.symm)))
    · exact fun h => hne _ rfl (Or.inr (Or.inr (Or.inr (Or.inl h.symm))))
    · exact fun h => hne _ rfl (Or.inr (Or.inr (Or.inr (Or.inr h.symm))))
  · intro hall
    exact planLoop_body_kept f.ins 0 (newService f) (Or.inr hall)

/-- C5, at the handler `func(m map[int]interface{}, in s.Point) string`: the
first struct-like or string-keyed map parameter is the one at index 1, and the
plan binds Body to index 0, the map keyed by `int`, since line 287 tests the
element type of a map only. -/
theorem makeCachedService_binds_int_keyed_map :
    (match makeCachedService (some intMapFunc) with
     | some (Except.ok s) => some (s.inIndex, s.inType)
     | _ => none) = some (0, some intKeyedMap) ∧
    intMapFunc.ins.map specBodyLike = [false, true] := by
  decide

theorem planStep_funcValue (i : Nat) (t : GoType) (s : webServiceType) :
    (planStep i t s).funcValue = s.funcValue := by
  unfold planStep
  repeat' split
  all_goals rfl

theorem planLoop_funcValue : ∀ (ts : List GoType) (i : Nat) (s : webServiceType),
    (planLoop i ts s).funcValue = s.funcValue
  | [], _, _ => rfl
  | t :: ts, i, s => by
    simp only [planLoop]
    rw [planLoop_funcValue ts (i + 1), planStep_funcValue]

theorem planStep_bounds (n i : Nat) (t : GoType) (s : webServiceType) (hi : i < n)
    (h : PlanBounds n s) : PlanBounds n (planStep i t s) := by
  obtain ⟨h0, h1, h2, h3, h4, h5, h6⟩ := h
  have hi1 : (-1 : Int) ≤ (i : Int) := by omega
  have hi2 : (i : Int) < (n : Int) := by omega
  have hi3 : (0 : Int) ≤ (i : Int) := by omega
  unfold planStep
  repeat' split
  · exact ⟨h0, h1, h2, ⟨hi1, hi2⟩, h4, h5, h6⟩
  · exact ⟨h0, h1, h2, h3, ⟨hi1, hi2⟩, h5, h6⟩
  · exact ⟨h0, h1, h2, h3, h4, ⟨hi1, hi2⟩, h6⟩
  · exact ⟨h0, h1, ⟨hi1, hi2⟩, h3, h4, h5, h6⟩
  · exact ⟨h0, h1, h2, h3, h4, h5, ⟨hi1, hi2⟩⟩
  · exact ⟨Or.inr hi3, ⟨hi1, hi2⟩, h2, h3, h4, h5, h6⟩
  · exact ⟨h0, h1, h2, h3, h4, h5, h6⟩
  · exact ⟨h0, h1, h2, h3, h4, h5, h6⟩

theorem planLoop_bounds (n : Nat) : ∀ (ts : List GoType) (i : Nat) (s : webServiceType),
    i + ts.length ≤ n → PlanBounds n s → PlanBounds n (planLoop i ts s)
  | [], _, _, _, h => h
  | t :: ts, i, s, hn, h => by
    simp only [List.length_cons] at hn
    simp only [planLoop]
    exact planLoop_bounds n ts (i + 1) _ (by omega) (planStep_bounds n i t s (by omega) h)

theorem newService_bounds (f : Service) : PlanBounds f.ins.length (newService f) := by
  have h1 : (-1 : Int) < (f.ins.length : Int) := by omega
  exact ⟨Or.inl rfl, ⟨le_refl _, h1⟩, ⟨le_refl _, h1⟩, ⟨le_refl _, h1⟩, ⟨le_refl _, h1⟩,
    ⟨le_refl _, h1⟩, ⟨le_refl _, h1⟩⟩

/-- What `makeCachedService` returns without error: the plan of a function
value, with its indexes in bounds. -/
theorem makeCachedService_ok (sf : Option Service) (s : webServiceType)
    (h : makeCachedService sf = some (Except.ok s)) :
    ∃ f, sf = some f ∧ f.typ.Kind = Kind.Func ∧ s = planLoop 0 f.ins (newService f) ∧
      s.parmsNum = f.ins.length ∧ s.funcType = f.ins ∧ s.funcValue = f ∧
      PlanBounds s.parmsNum s := by
  cases sf with
  | none => simp [makeCachedService] at h
  | some f =>
    by_cases hf : f.typ.Kind = Kind.Func
    · simp only [makeCachedService, hf, ne_eq, not_true_eq_false, if_false, Option.some.injEq,
        Except.ok.injEq] at h
      obtain ⟨_, _, h3, h4⟩ := planLoop_newService f
      refine ⟨f, rfl, hf, h.symm, ?_, ?_, ?_, ?_⟩
      · rw [← h]; exact h3
      · rw [← h]; exact h4
      · rw [← h, planLoop_funcValue]; rfl
      · rw [← h, h3]
        exact planLoop_bounds _ f.ins 0 _ (by omega) (newService_bounds f)
    · simp [makeCachedService, hf] at h

/-! ## The argument binder -/

theorem setParm_spec (parms : List Value) (i : Int) (v : Value) (h0 : 0 ≤ i)
    (h1 : i < parms.length) :
    ∃ p1, setParm parms i v = some p1 ∧ p1.length = parms.length ∧
      (∀ j : Nat, i ≠ j → p1[j]? = parms[j]?) ∧
      (∀ j : Nat, i = j → p1[j]? = some v) := by
  have h2 : i.toNat < parms.length := by omega
  refine ⟨parms.set i.toNat v, by simp [setParm, h0, h2], by simp, ?_, ?_⟩
  · intro j hj
    have : i.toNat ≠ j := by omega
    simp [List.getElem?_set, this]
  · intro j hj
    have hj1 : i.toNat = j := by omega
    subst hj1
    simp [List.getElem?_set, h2]

theorem setIfBound_spec (parms : List Value) (i : Int) (v : Value) (h1 : i < parms.length) :
    ∃ p1, setIfBound parms i v = some p1 ∧ p1.length = parms.length ∧
      (∀ j : Nat, i ≠ j → p1[j]? = parms[j]?) ∧
      (∀ j : Nat, i = j → p1[j]? = some v) := by
  by_cases h0 : 0 ≤ i
  · simpa [setIfBound, h0] using setParm_spec parms i v h0 h1
  · refine ⟨parms, by simp [setIfBound, h0], rfl, fun _ _ => rfl, ?_⟩
    intro j hj
    omega

theorem bindBody_spec (ext : Ext) (s : webServiceType) (rq : RequestState) (parms : List Value)
    (h0 : s.inType = none ∨ 0 ≤ s.inIndex) (h1 : s.inIndex < parms.length) :
    ∃ p1 ev1, bindBody ext s rq parms = some (p1, ev1) ∧ p1.length = parms.length ∧
      (∀ j : Nat, (s.inType = none ∨ s.inIndex ≠ j) → p1[j]? = parms[j]?) ∧
      (∀ e ∈ ev1, e.isCall = false ∧ e.isInjection = false) := by
  cases hin : s.inType with
  | none =>
    exact ⟨parms, [], by simp [bindBody, hin], rfl, fun _ _ => rfl, by simp⟩
  | some t =>
    have h00 : 0 ≤ s.inIndex := by
      rcases h0 with h | h
      · simp [hin] at h
      · exact h
    by_cases hk : t.Kind = Kind.Map ∧ t.elemKindIs Kind.Interface = true
    · obtain ⟨p1, e1, e2, e3, _⟩ := setParm_spec parms s.inIndex (Value.args rq.args) h00 h1
      refine ⟨p1, [], by simp [bindBody, hin, hk, e1], e2, ?_, by simp⟩
      intro j hj
      rcases hj with h | h
      · simp at h
      · exact e3 j h
    · obtain ⟨p1, e1, e2, e3, _⟩ :=
        setParm_spec parms s.inIndex (Value.decoded t rq.args) h00 h1
      refine ⟨p1, _, by simp only [bindBody, hin, hk, if_false, e1, Option.map_some']; rfl,
        e2, ?_, ?_⟩
      · intro j hj
        rcases hj with h | h
        · simp at h
        · exact e3 j h
      · intro e he
        split at he
        · simp only [List.mem_singleton] at he
          subst he
          exact ⟨rfl, rfl⟩
        · simp at he

theorem bindMarkers_spec (s : webServiceType) (rq : RequestState) (parms : List Value)
    (h2 : s.headersIndex < parms.length) (h3 : s.requestIndex < parms.length)
    (h4 : s.responseIndex < parms.length) (h5 : s.loggerIndex < parms.length)
    (h6 : s.callerIndex < parms.length) :
    ∃ p5, bindMarkers s rq parms = some p5 ∧ p5.length = parms.length ∧
      (∀ j : Nat, s.headersIndex ≠ j → s.requestIndex ≠ j → s.responseIndex ≠ j →
        s.loggerIndex ≠ j → s.callerIndex ≠ j → p5[j]? = parms[j]?) := by
  obtain ⟨p1, e1, l1, g1, _⟩ :=
    setIfBound_spec parms s.headersIndex (Value.header rq.request) h2
  obtain ⟨p2, e2, l2, g2, _⟩ :=
    setIfBound_spec p1 s.requestIndex (Value.request rq.request) (by rw [l1]; exact h3)
  obtain ⟨p3, e3, l3, g3, _⟩ :=
    setIfBound_spec p2 s.responseIndex (valueOfWriter rq.response) (by rw [l2, l1]; exact h4)
  obtain ⟨p4, e4, l4, g4, _⟩ :=
    setIfBound_spec p3 s.loggerIndex (Value.logger rq.requestLogger)
      (by rw [l3, l2, l1]; exact h5)
  obtain ⟨p5, e5, l5, g5, _⟩ :=
    setIfBound_spec p4 s.callerIndex (Value.caller rq.request)
      (by rw [l4, l3, l2, l1]; exact h6)
  refine ⟨p5, by simp [bindMarkers, e1, e2, e3, e4, e5], by rw [l5, l4, l3, l2, l1], ?_⟩
  intro j a1 a2 a3 a4 a5
  rw [g5 j a5, g4 j a4, g3 j a3, g2 j a2, g1 j a1]

theorem fillSlot_valid (ext : Ext) (stores : Stores) (rq : RequestState) (st : GoType) :
    (fillSlot ext stores rq st).1.isInvalid = false := by
  unfold fillSlot
  repeat' split
  all_goals rfl

theorem fillSlot_events (ext : Ext) (stores : Stores) (rq : RequestState) (st : GoType) :
    ∀ e ∈ (fillSlot ext stores rq st).2, e.isCall = false := by
  unfold fillSlot
  repeat' split
  all_goals simp [Event.isCall]

theorem fillLoop_spec (ext : Ext) (stores : Stores) (rq : RequestState) :
    ∀ (parms : List Value) (ins : List GoType), parms.length ≤ ins.length →
      ∃ vs evs, fillLoop ext stores rq parms ins = some (vs, evs) ∧
        vs.length = parms.length ∧ (∀ v ∈ vs, v.isInvalid = false) ∧
        (∀ (j : Nat) (v : Value) (t : GoType), parms[j]? = some v → ins[j]? = some t →
          vs[j]? = some (if v.isInvalid then (fillSlot ext stores rq t).1 else v)) ∧
        (∀ e ∈ evs, e.isCall = false)
  | [], ins, _ => ⟨[], [], by simp [fillLoop], rfl, by simp, by simp, by simp⟩
  | parm :: rest, [], h => by simp at h
  | parm :: rest, st :: ins1, h => by
    simp only [List.length_cons, add_le_add_iff_right] at h
    obtain ⟨vs, evs, e1, e2, e3, e4, e5⟩ := fillLoop_spec ext stores rq rest ins1 h
    by_cases hp : parm.isInvalid = true
    · refine ⟨(fillSlot ext stores rq st).1 :: vs, (fillSlot ext stores rq st).2 ++ evs,
        by simp [fillLoop, hp, e1], by simp [e2], ?_, ?_, ?_⟩
      · intro v hv
        simp only [List.mem_cons] at hv
        rcases hv with hv | hv
        · rw [hv]; exact fillSlot_valid ext stores rq st
        · exact e3 v hv
      · intro j v t hj ht
        cases j with
        | zero =>
          simp only [List.getElem?_cons_zero, Option.some.injEq] at hj ht ⊢
          subst hj ht
          simp [hp]
        | succ j =>
          simp only [List.getElem?_cons_succ] at hj ht ⊢
          exact e4 j v t hj ht
      · intro e he
        simp only [List.mem_append] at he
        rcases he with he | he
        · exact fillSlot_events ext stores rq st e he
        · exact e5 e he
    · refine ⟨parm :: vs, evs, by simp [fillLoop, hp, e1], by simp [e2], ?_, ?_, e5⟩
      · intro v hv
        simp only [List.mem_cons] at hv
        rcases hv with hv | hv
        · rw [hv]; simpa using hp
        · exact e3 v hv
      · intro j v t hj ht
        cases j with
        | zero =>
          simp only [List.getElem?_cons_zero, Option.some.injEq] at hj ht ⊢
          subst hj ht
          simp [hp]
        | succ j =>
          simp only [List.getElem?_cons_succ] at hj ht ⊢
          exact e4 j v t hj ht

theorem buildParms_spec (ext : Ext) (stores : Stores) (s : webServiceType)
    (rq : RequestState) (hb : PlanBounds s.parmsNum s) (hl : s.funcType.length = s.parmsNum) :
    ∃ parms evs, buildParms ext stores s rq = some (parms, evs) ∧
      parms.length = s.parmsNum ∧ (∀ v ∈ parms, v.isInvalid = false) ∧
      (∀ (j : Nat) (t : GoType), unboundAt s j → s.funcType[j]? = some t →
        parms[j]? = some (fillSlot ext stores rq t).1) ∧
      (∀ e ∈ evs, e.isCall = false) := by
  obtain ⟨h0, h1, h2, h3, h4, h5, h6⟩ := hb
  have hlen : (List.replicate s.parmsNum Value.invalid).length = s.parmsNum := by simp
  obtain ⟨p1, ev1, e1, l1, g1, c1⟩ :=
    bindBody_spec ext s rq (List.replicate s.parmsNum Value.invalid) h0
      (by rw [hlen]; exact h1.2)
  rw [hlen] at l1
  obtain ⟨p2, e2, l2, g2⟩ := bindMarkers_spec s rq p1 (by rw [l1]; exact h2.2)
    (by rw [l1]; exact h3.2) (by rw [l1]; exact h4.2) (by rw [l1]; exact h5.2)
    (by rw [l1]; exact h6.2)
  obtain ⟨vs, ev3, e3, l3, v3, g3, c3⟩ :=
    fillLoop_spec ext stores rq p2 s.funcType (by rw [l2, l1, hl])
  refine ⟨vs, ev1 ++ ev3, ?_, by rw [l3, l2, l1], v3, ?_, ?_⟩
  · simp [buildParms, e1, e2, e3]
  · intro j t hu ht
    obtain ⟨u0, u2, u3, u4, u5, u6⟩ := hu
    have hj : j < s.parmsNum := by
      rw [← hl]
      exact (List.getElem?_eq_some_iff.mp ht).1
    have hp2 : p2[j]? = some Value.invalid := by
      rw [g2 j u2 u3 u4 u5 u6, g1 j u0]
      simp [hj]
    have := g3 j Value.invalid t hp2 ht
    simpa [Value.isInvalid] using this
  · intro e he
    simp only [List.mem_append] at he
    rcases he with he | he
    · exact (c1 e he).1
    · exact c3 e he

/-- C7: for a descriptor produced by `makeCachedService` and any request
state, stores and collaborators (a nil response writer and a decode error
included), every index of the plan is within bounds, the binder builds an
argument list of length `parmsNum` without panic, every position of which
holds a valid value; an unbound parameter whose type has no session object and
no singleton registered holds the zero value of its type. -/
theorem buildParms_never_fails (sf : Option Service) (s : webServiceType) (ext : Ext)
    (stores : Stores) (rq : RequestState)
    (h : makeCachedService sf = some (Except.ok s)) :
    PlanBounds s.parmsNum s ∧
    ∃ parms evs, buildParms ext stores s rq = some (parms, evs) ∧
      parms.length = s.parmsNum ∧ (∀ v ∈ parms, v.isInvalid = false) ∧
      (∀ (i : Nat) (t : GoType), unboundAt s i → s.funcType[i]? = some t →
        GetSessionInject stores rq.request t = none → GetInject stores t = none →
        parms[i]? = some (Value.zero t)) := by
  obtain ⟨f, _, _, _, hn, hft, _, hb⟩ := makeCachedService_ok sf s h
  obtain ⟨parms, evs, e1, e2, e3, e4, _⟩ :=
    buildParms_spec ext stores s rq hb (by rw [hft, hn])
  refine ⟨hb, parms, evs, e1, e2, e3, ?_⟩
  intro i t hu ht hs hi
  rw [e4 i t hu ht]
  unfold fillSlot
  split <;> simp [hs, hi]

theorem buildParms_never_fails_witness :
    makeCachedService (some writerFunc) =
      some (Except.ok (planLoop 0 writerFunc.ins (newService writerFunc))) ∧
    (PlanBounds (planLoop 0 writerFunc.ins (newService writerFunc)).parmsNum
        (planLoop 0 writerFunc.ins (newService writerFunc)) ∧
      ∃ parms evs, buildParms plainExt emptyStores
          (planLoop 0 writerFunc.ins (newService writerFunc)) nilWriterRequest =
            some (parms, evs) ∧
        parms.length = (planLoop 0 writerFunc.ins (newService writerFunc)).parmsNum ∧
        (∀ v ∈ parms, v.isInvalid = false) ∧
        (∀ (i : Nat) (t : GoType),
          unboundAt (planLoop 0 writerFunc.ins (newService writerFunc)) i →
          (planLoop 0 writerFunc.ins (newService writerFunc)).funcType[i]? = some t →
          GetSessionInject emptyStores nilWriterRequest.request t = none →
          GetInject emptyStores t = none →
          parms[i]? = some (Value.zero t))) :=
  ⟨rfl, buildParms_never_fails (some writerFunc) _ plainExt emptyStores nilWriterRequest rfl⟩

/-- With a nil response writer the slot of the writer is filled with the zero
value of `http.ResponseWriter` by the loop of line 210. -/
theorem buildParms_nil_writer :
    buildParms plainExt emptyStores (planLoop 0 writerFunc.ins (newService writerFunc))
        nilWriterRequest =
      some ([Value.zero responseWriterType, Value.zero sessionPtrType],
        [Event.sessionLookup 7 sessionPtrType, Event.injectLookup sessionPtrType]) := by
  decide

/-- An object stored by `SetSessionInject` is found under its run-time
type for the same request. -/
theorem GetSessionInject_SetSessionInject (st : Stores) (request : Nat) (o : Obj) :
    GetSessionInject (SetSessionInject st request (some o)) request o.typ = some o := by
  simp [GetSessionInject, SetSessionInject]

/-- An object stored by `SetInject` is found under its run-time type. -/
theorem GetInject_SetInject (st : Stores) (o : Obj) :
    GetInject (SetInject st (some o)) o.typ = some o := by
  simp [GetInject, SetInject]

/-- With a session object and a singleton of type `*s.Session` both
registered, the unbound parameter of that type receives the session object
and the singleton is not looked up. -/
theorem fallback_session_first :
    buildParms plainExt
        (SetInject (SetSessionInject emptyStores 7 (some sessionObj)) (some singletonObj))
        (planLoop 0 countFunc.ins (newService countFunc)) sampleRequest =
      some ([Value.zero intType, Value.object sessionObj],
        [Event.sessionLookup 7 sessionPtrType]) := by
  decide

/-- With only a singleton of type `*s.Session` registered, the unbound
parameter of that type receives the singleton. -/
theorem fallback_singleton_second :
    buildParms plainExt (SetInject emptyStores (some singletonObj))
        (planLoop 0 countFunc.ins (newService countFunc)) sampleRequest =
      some ([Value.zero intType, Value.object singletonObj],
        [Event.sessionLookup 7 sessionPtrType, Event.injectLookup sessionPtrType]) := by
  decide

/-- C6 as stated fails for a parameter of type `int`: with an `int` registered
as session object of the request, the unbound `int` parameter of
`func(n int, u *s.Session) string` still receives the zero value, since the
stores are consulted for structs and pointers to structs only. -/
theorem fallback_skips_int :
    unboundAt (planLoop 0 countFunc.ins (newService countFunc)) 0 ∧
    GetSessionInject (SetSessionInject emptyStores 7 (some intObj)) 7 intType = some intObj ∧
    (buildParms plainExt (SetSessionInject emptyStores 7 (some intObj))
        (planLoop 0 countFunc.ins (newService countFunc)) sampleRequest).map
      (fun r => r.1[0]?) = some (some (Value.zero intType)) ∧
    Value.zero intType ≠ Value.object intObj := by
  decide

/-- C6, amended: for a descriptor produced by `makeCachedService`, an
unbound parameter of declared type `t` that is a struct or a pointer to a
struct receives the session object of type `t` of this request when there is
one (whatever the singletons are), otherwise the singleton of type `t` when
there is one, otherwise the zero value of `t`; an unbound parameter of any
other type receives the zero value of `t`. -/
theorem fallback_three_steps (sf : Option Service) (s : webServiceType) (ext : Ext)
    (stores : Stores) (rq : RequestState) (i : Nat) (t : GoType)
    (h : makeCachedService sf = some (Except.ok s)) (hu : unboundAt s i)
    (ht : s.funcType[i]? = some t) :
    ∃ parms evs, buildParms ext stores s rq = some (parms, evs) ∧
      (structOrPtr t →
        (∀ o, GetSessionInject stores rq.request t = some o →
          parms[i]? = some (Value.object o)) ∧
        (∀ o, GetSessionInject stores rq.request t = none → GetInject stores t = some o →
          parms[i]? = some (Value.object o)) ∧
        (GetSessionInject stores rq.request t = none → GetInject stores t = none →
          parms[i]? = some (Value.zero t))) ∧
      (¬ structOrPtr t → parms[i]? = some (Value.zero t)) := by
  obtain ⟨f, _, _, _, hn, hft, _, hb⟩ := makeCachedService_ok sf s h
  obtain ⟨parms, evs, e1, _, _, e4, _⟩ :=
    buildParms_spec ext stores s rq hb (by rw [hft, hn])
  refine ⟨parms, evs, e1, ?_, ?_⟩
  · intro hk
    unfold structOrPtr at hk
    refine ⟨?_, ?_, ?_⟩
    · intro o ho
      rw [e4 i t hu ht]
      simp [fillSlot, hk, ho]
    · intro o hs ho
      rw [e4 i t hu ht]
      simp [fillSlot, hk, hs, ho]
    · intro hs ho
      rw [e4 i t hu ht]
      simp [fillSlot, hk, hs, ho]
  · intro hk
    unfold structOrPtr at hk
    rw [e4 i t hu ht]
    simp [fillSlot, hk]

theorem fallback_three_steps_witness :
    makeCachedService (some countFunc) =
      some (Except.ok (planLoop 0 countFunc.ins (newService countFunc))) ∧
    unboundAt (planLoop 0 countFunc.ins (newService countFunc)) 1 ∧
    (planLoop 0 countFunc.ins (newService countFunc)).funcType[1]? = some sessionPtrType ∧
    ∃ parms evs, buildParms plainExt
        (SetInject (SetSessionInject emptyStores 7 (some sessionObj)) (some singletonObj))
        (planLoop 0 countFunc.ins (newService countFunc)) sampleRequest = some (parms, evs) ∧
      (structOrPtr sessionPtrType →
        (∀ o, GetSessionInject
            (SetInject (SetSessionInject emptyStores 7 (some sessionObj)) (some singletonObj))
            sampleRequest.request sessionPtrType = some o →
          parms[1]? = some (Value.object o)) ∧
        (∀ o, GetSessionInject
            (SetInject (SetSessionInject emptyStores 7 (some sessionObj)) (some singletonObj))
            sampleRequest.request sessionPtrType = none →
          GetInject
            (SetInject (SetSessionInject emptyStores 7 (some sessionObj)) (some singletonObj))
            sessionPtrType = some o →
          parms[1]? = some (Value.object o)) ∧
        (GetSessionInject
            (SetInject (SetSessionInject emptyStores 7 (some sessionObj)) (some singletonObj))
            sampleRequest.request sessionPtrType = none →
          GetInject
            (SetInject (SetSessionInject emptyStores 7 (some sessionObj)) (some singletonObj))
            sessionPtrType = none →
          parms[1]? = some (Value.zero sessionPtrType))) ∧
      (¬ structOrPtr sessionPtrType → parms[1]? = some (Value.zero sessionPtrType)) :=
  ⟨rfl, by decide, by decide,
    fallback_three_steps (some countFunc) _ plainExt
      (SetInject (SetSessionInject emptyStores 7 (some sessionObj)) (some singletonObj))
      sampleRequest 1 sessionPtrType rfl (by decide) (by decide)⟩

/-- The handler `func(n int, u *s.Session) string`, whose arguments `Call`
accepts, is called once and its result returned. -/
theorem doWebService_calls_once :
    doWebService plainExt emptyStores (planLoop 0 countFunc.ins (newService countFunc))
        sampleRequest none =
      (Outcome.result (some emptyString),
        [Event.sessionLookup 7 sessionPtrType, Event.injectLookup sessionPtrType,
          Event.call [Value.zero intType, Value.zero sessionPtrType]]) := by
  decide

/-- For the handler `func(m map[int]interface{}, in s.Point) string` the
binder puts the bag, a `map[string]interface{}`, into the slot of `m`; `Call`
rejects it whatever the collaborators are, and the handler is not entered. -/
theorem doWebService_int_keyed_map_panics (ext : Ext) :
    doWebService ext emptyStores (planLoop 0 intMapFunc.ins (newService intMapFunc))
        sampleRequest none =
      (Outcome.panic, [Event.sessionLookup 7 pointType, Event.injectLookup pointType]) := by
  rfl

/-- When `reflect.Value.Call` rejects the arguments the binder built,
`doWebService` panics after the effects of the binder and the handler is not
entered. -/
theorem doWebService_rejected (ext : Ext) (stores : Stores) (s : webServiceType)
    (rq : RequestState) (parms : List Value) (evs : List Event)
    (hb : buildParms ext stores s rq = some (parms, evs))
    (hr : callAccepts ext s.funcValue parms = false) :
    doWebService ext stores s rq none = (Outcome.panic, evs) := by
  simp [doWebService, hb, hr]

/-- C8 as stated fails for the variadic handler `func(names ...string) string`:
the binder builds one argument, the zero value of `[]string`, and
`reflect.Value.Call` rejects a `[]string` for an element of type `string`,
whatever the collaborators are; with a nil prior result `doWebService` panics
and the handler is not called. -/
theorem doWebService_variadic_panics :
    makeCachedService (some variadicFunc) =
      some (Except.ok (planLoop 0 variadicFunc.ins (newService variadicFunc))) ∧
    ∀ (ext : Ext) (stores : Stores) (rq : RequestState),
      buildParms ext stores (planLoop 0 variadicFunc.ins (newService variadicFunc)) rq =
        some ([Value.zero stringSliceType], []) ∧
      doWebService ext stores (planLoop 0 variadicFunc.ins (newService variadicFunc)) rq none =
        (Outcome.panic, []) := by
  refine ⟨rfl, ?_⟩
  intro ext stores rq
  exact ⟨rfl, rfl⟩

/-- C8, amended: given a non-nil prior result, `doWebService` returns that
result with no effect at all (no lookup, no `SetLogger`, no call of the
handler), for any descriptor; given the nil prior result and a descriptor
produced by `makeCachedService`, the arguments are built, and when
`reflect.Value.Call` accepts them the handler is called exactly once, on
them; when the handler returns, the result is its first returned value, or
the empty string when it returns none. -/
theorem doWebService_result (f : Service) (s : webServiceType) (ext : Ext) (stores : Stores)
    (rq : RequestState) (h : makeCachedService (some f) = some (Except.ok s)) :
    (∀ (s1 : webServiceType) (r : Obj),
      doWebService ext stores s1 rq (some r) = (Outcome.result (some r), [])) ∧
    ∃ parms evs, buildParms ext stores s rq = some (parms, evs) ∧
      (callAccepts ext f parms = true →
        ∃ out, doWebService ext stores s rq none = (out, evs ++ [Event.call parms]) ∧
          (evs ++ [Event.call parms]).filter Event.isCall = [Event.call parms] ∧
          (∀ o outs, f.call parms = some (o :: outs) → out = Outcome.result o) ∧
          (f.call parms = some [] → out = Outcome.result (some emptyString))) := by
  refine ⟨fun _ _ => rfl, ?_⟩
  obtain ⟨g, hg, _, _, hn, hft, hfv, hb⟩ := makeCachedService_ok (some f) s h
  simp only [Option.some.injEq] at hg
  subst hg
  obtain ⟨parms, evs, e1, _, _, _, e5⟩ :=
    buildParms_spec ext stores s rq hb (by rw [hft, hn])
  have hfilter : (evs ++ [Event.call parms]).filter Event.isCall = [Event.call parms] := by
    rw [List.filter_append, List.filter_eq_nil_iff.mpr (fun e he => by simp [e5 e he])]
    rfl
  refine ⟨parms, evs, e1, ?_⟩
  intro hacc
  cases hc : f.call parms with
  | none =>
    refine ⟨Outcome.panic, ?_, hfilter, ?_, ?_⟩
    · simp [doWebService, e1, hfv, hacc, hc]
    · intro o outs ho
      cases ho
    · intro ho
      cases ho
  | some outs =>
    cases outs with
    | nil =>
      refine ⟨Outcome.result (some emptyString), ?_, hfilter, ?_, fun _ => rfl⟩
      · simp [doWebService, e1, hfv, hacc, hc]
      · intro o outs ho
        cases ho
    | cons out outs =>
      refine ⟨Outcome.result out, ?_, hfilter, ?_, ?_⟩
      · simp [doWebService, e1, hfv, hacc, hc]
      · intro o os ho
        cases ho
        rfl
      · intro ho
        cases ho

theorem doWebService_result_witness :
    makeCachedService (some countFunc) =
      some (Except.ok (planLoop 0 countFunc.ins (newService countFunc))) ∧
    callAccepts plainExt countFunc [Value.zero intType, Value.zero sessionPtrType] = true ∧
    ((∀ (s1 : webServiceType) (r : Obj),
      doWebService plainExt emptyStores s1 sampleRequest (some r) =
        (Outcome.result (some r), [])) ∧
    ∃ parms evs, buildParms plainExt emptyStores
        (planLoop 0 countFunc.ins (newService countFunc)) sampleRequest = some (parms, evs) ∧
      (callAccepts plainExt countFunc parms = true →
        ∃ out, doWebService plainExt emptyStores
            (planLoop 0 countFunc.ins (newService countFunc)) sampleRequest none =
              (out, evs ++ [Event.call parms]) ∧
          (evs ++ [Event.call parms]).filter Event.isCall = [Event.call parms] ∧
          (∀ o outs, countFunc.call parms = some (o :: outs) → out = Outcome.result o) ∧
          (countFunc.call parms = some [] → out = Outcome.result (some emptyString)))) :=
  ⟨rfl, by decide,
    doWebService_result countFunc _ plainExt emptyStores sampleRequest rfl⟩

/-! ## Response encoding -/

/-- C9, at the nil result: `json.Marshal(nil)` is the token `null`, the branch
of line 302 is entered, `reflect.TypeOf(nil)` is nil and `t.Kind()` panics; no
byte string is returned. -/
theorem makeBytesResult_nil_panics (enc : Obj → Bytes × Bool) (fixUpperCase : Bytes → Bytes) :
    encodeResult enc none = none ∧ makeBytesResult enc fixUpperCase none = none := by
  constructor <;> simp [makeBytesResult, encodeResult, jsonMarshal, typeOf]

/-- For a non-nil result whose encoding fails or is `null`: `[]` for a slice,
`{}` for a map, the bytes of `json.Marshal` for any other kind. -/
theorem encodeResult_failed (enc : Obj → Bytes × Bool) (d : Obj)
    (h : (enc d).2 = true ∨ (enc d).1 = [110, 117, 108, 108]) :
    (d.typ.Kind = Kind.Slice → encodeResult enc (some d) = some [91, 93]) ∧
    (d.typ.Kind = Kind.Map → encodeResult enc (some d) = some [123, 125]) ∧
    (d.typ.Kind ≠ Kind.Slice → d.typ.Kind ≠ Kind.Map →
      encodeResult enc (some d) = some (enc d).1) := by
  have hc : (enc d).2 = true ∨
      ((enc d).1.length = 4 ∧ (enc d).1 = [110, 117, 108, 108]) := by
    rcases h with h | h
    · exact Or.inl h
    · exact Or.inr ⟨by rw [h]; rfl, h⟩
  refine ⟨?_, ?_, ?_⟩
  · intro hk
    simp [encodeResult, jsonMarshal, typeOf, hc, hk]
  · intro hk
    simp [encodeResult, jsonMarshal, typeOf, hc, hk]
  · intro h1 h2
    simp [encodeResult, jsonMarshal, typeOf, hc, h1, h2]

/-- For a non-nil result that encodes without error to bytes other than
`null`, the output is the encoding. -/
theorem encodeResult_encoded (enc : Obj → Bytes × Bool) (d : Obj)
    (h1 : (enc d).2 = false) (h2 : (enc d).1 ≠ [110, 117, 108, 108]) :
    encodeResult enc (some d) = some (enc d).1 := by
  simp [encodeResult, jsonMarshal, h1, h2]

end WebService
